import Mathlib

set_option maxHeartbeats 1000000

/-!
Shallow embedding of the `.cton` lexical scanner (`src/lib/reader/src/lexer.rs`)
and proofs about it.  The source text is modelled as a `List Char`; the byte
cursor of the original becomes a character index (each character of the model
corresponds to one UTF-8 character of the original, and on the ASCII inputs of
the concrete claims the two coincide byte for byte).  The Unicode character
classifiers of the host language are modelled by their ASCII fragments.
Rust loops are modelled by fueled recursion; every call site passes
`source.length + 1` fuel, which is never exhausted because every loop
iteration advances the cursor.
-/

namespace Cton

/-- ASCII fragment of the Unicode alphabetic classifier used by the scanner. -/
def rust_is_alphabetic (c : Char) : Bool := c.isAlpha

/-- ASCII fragment of the Unicode alphanumeric classifier. -/
def rust_is_alphanumeric (c : Char) : Bool := c.isAlpha || c.isDigit

/-- ASCII fragment of the Unicode whitespace classifier: the space character
and the control characters U+0009 through U+000D. -/
def rust_is_whitespace (c : Char) : Bool :=
  c = ' ' || ('\x09' ≤ c && c ≤ '\x0d')

/-- ASCII decimal digit test, as the byte comparison in `trailing_digits`. -/
def is_ascii_digit (c : Char) : Bool := '0' ≤ c && c ≤ '9'

/-- Contiguous slice of a character list: positions `a` (inclusive) up to `b`
(exclusive), the model of the source's `&self.source[a..b]`. -/
def slice (l : List Char) (a b : Nat) : List Char := (l.drop a).take (b - a)

/-- Number of decimal digits at the end of `s` (source: `trailing_digits`). -/
def trailing_digits (s : List Char) : Nat :=
  (s.reverse.takeWhile is_ascii_digit).length

/-- Value of a decimal digit string, most significant digit first. -/
def digitsVal (s : List Char) : Nat :=
  s.foldl (fun a c => a * 10 + (c.toNat - '0'.toNat)) 0

/-- Model of `str::parse::<u32>` on the digit tails handed to it: succeeds on
a nonempty all-digit string whose value fits in 32 bits. -/
def parse_u32 (s : List Char) : Option Nat :=
  if s ≠ [] ∧ s.all is_ascii_digit = true ∧ digitsVal s < 2 ^ 32 then
    some (digitsVal s)
  else
    none

/-- Pre-parse a supposed entity name by splitting it into a head and a
canonical (non-zero-padded) numeric tail (source: `split_entity_name`). -/
def split_entity_name (name : List Char) : Option (List Char × Nat) :=
  let hd := name.take (name.length - trailing_digits name)
  let tl := name.drop (name.length - trailing_digits name)
  if 1 < tl.length ∧ tl.head? = some '0' then
    none
  else
    (parse_u32 tl).map (fun n => (hd, n))

/-- Modelled from the spec: value references live in two disjoint numbering
spaces, "direct" and "table", distinguished only by sigil; the constructors
`Value::direct_with_number` and `Value::table_with_number` of the IR library
are not part of the scanned source. -/
inductive Value where
  | direct (n : Nat)
  | table (n : Nat)
deriving DecidableEq, Repr

/-- Modelled from the spec: the direct numbering space is range-constrained;
construction fails above its maximum representable index (half of the 32-bit
index range, the two spaces sharing one packed 32-bit encoding). -/
def Value.direct_with_number (n : Nat) : Option Value :=
  if n < 2 ^ 31 then some (Value.direct n) else none

/-- Modelled from the spec: the table numbering space, same range constraint,
disjoint from the direct space. -/
def Value.table_with_number (n : Nat) : Option Value :=
  if n < 2 ^ 31 then some (Value.table n) else none

/-- Modelled from the spec: `Ebb::with_number` of the IR library (not part of
the scanned source) accepts any index below the reserved top of the 32-bit
index range. -/
def Ebb.with_number (n : Nat) : Option Nat :=
  if n < 2 ^ 32 - 1 then some n else none

/-- Scalar base types recognised by the scanner. -/
inductive BaseType where
  | i8
  | i16
  | i32
  | i64
  | f32
  | f64
  | b1
  | b8
  | b16
  | b32
  | b64
deriving DecidableEq, Repr

/-- Lane width in bits of each scalar base type. -/
def BaseType.laneBits : BaseType → Nat
  | .i8 => 8
  | .i16 => 16
  | .i32 => 32
  | .i64 => 64
  | .f32 => 32
  | .f64 => 64
  | .b1 => 1
  | .b8 => 8
  | .b16 => 16
  | .b32 => 32
  | .b64 => 64

/-- Modelled from the spec: a resolved scalar-or-vector type descriptor;
`lanes = 1` denotes the scalar base type itself. -/
structure VType where
  base : BaseType
  lanes : Nat
deriving DecidableEq, Repr

/-- Power-of-two test on lane counts. -/
def isPow2 (n : Nat) : Bool := decide (n ≠ 0) && decide (n &&& (n - 1) = 0)

/-- Modelled from the spec: `Type::by` of the IR library (not part of the
scanned source) builds a vector of the given lane count from a scalar base,
and this construction can fail; modelled as requiring a power-of-two lane
count whose total bit width stays representable (at most 256 bits). -/
def type_by (t : BaseType) (n : Nat) : Option VType :=
  if isPow2 n ∧ n * t.laneBits ≤ 256 then some ⟨t, n⟩ else none

/-- Fixed scalar base-type names recognised by `value_type`. -/
def base_type_of (s : List Char) : Option BaseType :=
  if s = "i8".toList then some .i8
  else if s = "i16".toList then some .i16
  else if s = "i32".toList then some .i32
  else if s = "i64".toList then some .i64
  else if s = "f32".toList then some .f32
  else if s = "f64".toList then some .f64
  else if s = "b1".toList then some .b1
  else if s = "b8".toList then some .b8
  else if s = "b16".toList then some .b16
  else if s = "b32".toList then some .b32
  else if s = "b64".toList then some .b64
  else none

/-- Token kinds produced by the scanner (source: `enum Token`).  Text-bearing
variants carry the verbatim character slice of the source they cover. -/
inductive Token where
  | Comment (text : List Char)
  | LPar
  | RPar
  | LBrace
  | RBrace
  | Comma
  | Dot
  | Colon
  | Equal
  | Arrow
  | Float (text : List Char)
  | Integer (text : List Char)
  | Typ (t : VType)
  | Value (v : Value)
  | Ebb (n : Nat)
  | StackSlot (n : Nat)
  | JumpTable (n : Nat)
  | FuncRef (n : Nat)
  | SigRef (n : Nat)
  | Identifier (text : List Char)
deriving DecidableEq, Repr

/-- A token together with the 1-based line number it starts on. -/
structure LocatedToken where
  token : Token
  location : Nat
deriving DecidableEq, Repr

/-- The one lexical error kind. -/
inductive LexError where
  | InvalidChar
deriving DecidableEq, Repr

/-- An error together with the line number of the offending character. -/
structure LocatedError where
  error : LexError
  location : Nat
deriving DecidableEq, Repr

/-- Scanner state: the full source, the index of the lookahead character and
the current 1-based line number (source: `struct Lexer`).  The lookahead
character itself is recovered from the index. -/
structure Lexer where
  source : List Char
  pos : Nat
  line_number : Nat
deriving DecidableEq, Repr

/-- The lookahead character, `none` at the end of the input. -/
def Lexer.lookahead (s : Lexer) : Option Char := s.source[s.pos]?

/-- Fresh scanner over a source text (source: `Lexer::new`). -/
def Lexer.new (src : List Char) : Lexer := ⟨src, 0, 1⟩

/-- Advance one character, bumping the line counter when the character being
left behind is a newline (source: `next_ch`). -/
def Lexer.next_ch (s : Lexer) : Lexer :=
  { s with
    line_number := if s.lookahead = some '\n' then s.line_number + 1 else s.line_number
    pos := min (s.pos + 1) s.source.length }

/-- Location of the lookahead character (source: `loc`); a location is just a
1-based line number. -/
def Lexer.loc (s : Lexer) : Nat := s.line_number

/-- Does the second list start with the first one? -/
def startsWith : List Char → List Char → Bool
  | [], _ => true
  | _ :: _, [] => false
  | a :: as, b :: bs => a == b && startsWith as bs

/-- Does the text at the cursor start with `p` (source: `looking_at`)? -/
def Lexer.looking_at (s : Lexer) (p : List Char) : Bool :=
  startsWith p (s.source.drop s.pos)

/-- Loop of `rest_of_line`: keep consuming until the character after the
cursor is a newline or the input ends.  The first character at the cursor is
consumed before any check, exactly as in the source. -/
def Lexer.rol_go (b : Nat) : Nat → Lexer → List Char × Lexer
  | 0, s => (slice s.source b s.pos, s)
  | fuel + 1, s =>
    let s2 := s.next_ch
    match s2.lookahead with
    | none => (slice s2.source b s2.pos, s2)
    | some c =>
      if c = '\n' then (slice s2.source b s2.pos, s2) else Lexer.rol_go b fuel s2

/-- Consume and return the rest of the current line (source: `rest_of_line`). -/
def Lexer.rest_of_line (s : Lexer) : List Char × Lexer :=
  Lexer.rol_go s.pos (s.source.length + 1) s

/-- Scan a comment extending to the end of the line (source: `scan_comment`). -/
def Lexer.scan_comment (s : Lexer) : Except LocatedError LocatedToken × Lexer :=
  let l := s.loc
  let r := s.rest_of_line
  (Except.ok ⟨Token.Comment r.1, l⟩, r.2)

/-- Loop of the NaN-payload branch of `scan_number`: consume characters until
the lookahead is a colon.  The source loop relies on its `looking_at` guard
for a colon to exist ahead; the model also stops at the end of the input,
which that guard makes unreachable. -/
def Lexer.nan_go : Nat → Lexer → Lexer
  | 0, s => s
  | fuel + 1, s =>
    let s2 := s.next_ch
    match s2.lookahead with
    | none => s2
    | some c => if c = ':' then s2 else Lexer.nan_go fuel s2

/-- Generic loop of `scan_number`: consume `-`, `_`, `.` and alphanumeric
characters, reporting whether a `.` was matched as a newly fetched lookahead.
The character at the cursor on entry is consumed by the first advance without
being examined, exactly as in the source. -/
def Lexer.num_go : Nat → Lexer → Lexer × Bool
  | 0, s => (s, false)
  | fuel + 1, s =>
    let s2 := s.next_ch
    match s2.lookahead with
    | none => (s2, false)
    | some c =>
      if c = '-' ∨ c = '_' then Lexer.num_go fuel s2
      else if c = '.' then ((Lexer.num_go fuel s2).1, true)
      else if rust_is_alphanumeric c then Lexer.num_go fuel s2
      else (s2, false)

/-- Scanner state at which `scan_number`'s generic loop begins: after the
optional sign and after the NaN-payload prelude. -/
def Lexer.num_loop_entry (s : Lexer) : Lexer :=
  let s1 := if s.lookahead = some '-' then s.next_ch else s
  if s1.looking_at ("NaN:".toList) || s1.looking_at ("sNaN:".toList) then
    Lexer.nan_go (s1.source.length + 1) s1
  else s1

/-- Whether `scan_number`'s NaN/Inf branch fires, marking the literal as
floating point before the generic loop runs. -/
def Lexer.nan_fired (s : Lexer) : Bool :=
  let s1 := if s.lookahead = some '-' then s.next_ch else s
  (s1.looking_at ("NaN:".toList) || s1.looking_at ("sNaN:".toList)) ||
    (s1.looking_at ("NaN".toList) || s1.looking_at ("Inf".toList))

/-- Scan a number token (source: `scan_number`): optional sign, NaN/Inf
prelude, generic consumption loop, then classification as Float or Integer
with the verbatim source slice as text. -/
def Lexer.scan_number (s : Lexer) : Except LocatedError LocatedToken × Lexer :=
  let b := s.pos
  let l := s.loc
  let s2 := s.num_loop_entry
  let r := Lexer.num_go (s2.source.length + 1) s2
  let text := slice r.1.source b r.1.pos
  if s.nan_fired || r.2 then
    (Except.ok ⟨Token.Float text, l⟩, r.1)
  else
    (Except.ok ⟨Token.Integer text, l⟩, r.1)

/-- Decode a well-known numbered entity from its sigil and number (source:
`numbered_entity`). -/
def numbered_entity (sig : List Char) (number : Nat) : Option Token :=
  if sig = "v".toList then (Value.direct_with_number number).map Token.Value
  else if sig = "vx".toList then (Value.table_with_number number).map Token.Value
  else if sig = "ebb".toList then (Ebb.with_number number).map Token.Ebb
  else if sig = "ss".toList then some (Token.StackSlot number)
  else if sig = "jt".toList then some (Token.JumpTable number)
  else if sig = "fn".toList then some (Token.FuncRef number)
  else if sig = "sig".toList then some (Token.SigRef number)
  else none

/-- Recognise a scalar or vector type name (source: `value_type`).  A head
ending in `x` is a vector form: its lane count must fit in 16 bits and the
vector construction itself may fail; otherwise the entire word must be one of
the fixed scalar names. -/
def value_type (text pfx : List Char) (number : Nat) : Option Token :=
  let is_vector := pfx.getLast? = some 'x'
  let scalar := if is_vector then pfx.take (pfx.length - 1) else text
  match base_type_of scalar with
  | none => none
  | some bt =>
    if is_vector then
      if number ≤ 65535 then (type_by bt number).map Token.Typ else none
    else
      some (Token.Typ ⟨bt, 1⟩)

/-- Loop of `scan_word`: consume a run of `_` and alphanumeric characters. -/
def Lexer.word_go : Nat → Lexer → Lexer
  | 0, s => s
  | fuel + 1, s =>
    let s2 := s.next_ch
    match s2.lookahead with
    | none => s2
    | some c =>
      if c = '_' then Lexer.word_go fuel s2
      else if rust_is_alphanumeric c then Lexer.word_go fuel s2
      else s2

/-- Scan a word and decode it: numbered entity first, then type name, falling
back to a plain identifier (source: `scan_word`). -/
def Lexer.scan_word (s : Lexer) : Except LocatedError LocatedToken × Lexer :=
  let b := s.pos
  let l := s.loc
  let s2 := Lexer.word_go (s.source.length + 1) s
  let text := slice s2.source b s2.pos
  (Except.ok
      ⟨(split_entity_name text |>.bind fun p =>
            (numbered_entity p.1 p.2).orElse fun _ => value_type text p.1 p.2).getD
          (Token.Identifier text),
        l⟩,
    s2)

/-- Emit a single-character token and advance (source: `scan_char`). -/
def Lexer.scan_char (s : Lexer) (tok : Token) : Except LocatedError LocatedToken × Lexer :=
  (Except.ok ⟨tok, s.loc⟩, s.next_ch)

/-- Emit a two-character token and advance twice (source: `scan_chars` with
count 2, its only use). -/
def Lexer.scan_chars2 (s : Lexer) (tok : Token) : Except LocatedError LocatedToken × Lexer :=
  (Except.ok ⟨tok, s.loc⟩, s.next_ch.next_ch)

/-- One call to `next`: skip whitespace, then dispatch on the lookahead
character (source: `next`).  The fuel bounds the whitespace-skipping loop;
`source.length + 1` can never be exhausted. -/
def Lexer.nextGo : Nat → Lexer → Option (Except LocatedError LocatedToken) × Lexer
  | 0, s => (none, s)
  | fuel + 1, s =>
    match s.lookahead with
    | none => (none, s)
    | some c =>
      if c = ';' then (some (s.scan_comment).1, (s.scan_comment).2)
      else if c = '(' then (some (s.scan_char Token.LPar).1, (s.scan_char Token.LPar).2)
      else if c = ')' then (some (s.scan_char Token.RPar).1, (s.scan_char Token.RPar).2)
      else if c = '\x7b' then (some (s.scan_char Token.LBrace).1, (s.scan_char Token.LBrace).2)
      else if c = '\x7d' then (some (s.scan_char Token.RBrace).1, (s.scan_char Token.RBrace).2)
      else if c = ',' then (some (s.scan_char Token.Comma).1, (s.scan_char Token.Comma).2)
      else if c = '.' then (some (s.scan_char Token.Dot).1, (s.scan_char Token.Dot).2)
      else if c = ':' then (some (s.scan_char Token.Colon).1, (s.scan_char Token.Colon).2)
      else if c = '=' then (some (s.scan_char Token.Equal).1, (s.scan_char Token.Equal).2)
      else if c = '-' then
        if s.looking_at ("->".toList) then
          (some (s.scan_chars2 Token.Arrow).1, (s.scan_chars2 Token.Arrow).2)
        else (some (s.scan_number).1, (s.scan_number).2)
      else if is_ascii_digit c then (some (s.scan_number).1, (s.scan_number).2)
      else if rust_is_alphabetic c then (some (s.scan_word).1, (s.scan_word).2)
      else if rust_is_whitespace c then Lexer.nextGo fuel s.next_ch
      else (some (Except.error ⟨LexError.InvalidChar, s.loc⟩), s.next_ch)

/-- Get the next token or lexical error, together with the scanner state that
remains; `none` at the end of the source (source: `next`). -/
def Lexer.next (s : Lexer) : Option (Except LocatedError LocatedToken) × Lexer :=
  Lexer.nextGo (s.source.length + 1) s

/-- Collect the emitted results of repeated `next` calls. -/
def Lexer.drive : Nat → Lexer → List (Except LocatedError LocatedToken)
  | 0, _ => []
  | n + 1, s =>
    match s.next with
    | (none, _) => []
    | (some r, s2) => r :: Lexer.drive n s2

/-- Tokenize a whole string: fresh scanner, then repeated `next` calls until
end of input. -/
def tokenize (src : String) : List (Except LocatedError LocatedToken) :=
  Lexer.drive (src.toList.length + 1) (Lexer.new src.toList)

/-- State after `n` calls to `next`. -/
def Lexer.iterN : Nat → Lexer → Lexer
  | 0, s => s
  | n + 1, s => Lexer.iterN n (s.next).2

/-! ### Decidable equality for scan results -/

deriving instance DecidableEq for Except

/-! ### Basic facts about the scanner state -/

theorem Lexer.lookahead_none_iff (s : Lexer) :
    s.lookahead = none ↔ s.source.length ≤ s.pos := by
  simp [Lexer.lookahead, List.getElem?_eq_none_iff]

theorem Lexer.lookahead_some_lt {s : Lexer} {c : Char} (h : s.lookahead = some c) :
    s.pos < s.source.length := by
  by_contra hle
  rw [show s.lookahead = none from (Lexer.lookahead_none_iff s).mpr (by omega)] at h
  exact Option.noConfusion h

@[simp]
theorem Lexer.next_ch_source (s : Lexer) : (s.next_ch).source = s.source := rfl

theorem Lexer.next_ch_pos (s : Lexer) :
    (s.next_ch).pos = min (s.pos + 1) s.source.length := rfl

theorem Lexer.next_ch_pos_of_lt {s : Lexer} (h : s.pos < s.source.length) :
    (s.next_ch).pos = s.pos + 1 := by
  rw [Lexer.next_ch_pos]; omega

theorem Lexer.next_ch_wf {s : Lexer} (h : s.pos ≤ s.source.length) :
    s.pos ≤ (s.next_ch).pos ∧ (s.next_ch).pos ≤ s.source.length := by
  rw [Lexer.next_ch_pos]; omega

/-! ### Source preservation and cursor bounds for each loop -/

theorem Lexer.rol_go_source (b : Nat) :
    ∀ (fuel : Nat) (s : Lexer), ((Lexer.rol_go b fuel s).2).source = s.source := by
  intro fuel
  induction fuel with
  | zero => intro s; rfl
  | succ n ih =>
    intro s
    unfold Lexer.rol_go
    cases h : (s.next_ch).lookahead with
    | none => simp [h]
    | some c =>
      simp only [h]
      by_cases hc : c = '\n'
      · simp [hc]
      · simpa [hc] using (ih s.next_ch).trans (Lexer.next_ch_source s)

theorem Lexer.rol_go_pos (b : Nat) :
    ∀ (fuel : Nat) (s : Lexer), s.pos ≤ s.source.length →
      s.pos ≤ ((Lexer.rol_go b fuel s).2).pos ∧
        ((Lexer.rol_go b fuel s).2).pos ≤ s.source.length := by
  intro fuel
  induction fuel with
  | zero => intro s h; exact ⟨le_refl _, h⟩
  | succ n ih =>
    intro s h
    have hwf := Lexer.next_ch_wf h
    unfold Lexer.rol_go
    cases hla : (s.next_ch).lookahead with
    | none => simpa [hla] using hwf
    | some c =>
      simp only [hla]
      by_cases hc : c = '\n'
      · simpa [hc] using hwf
      · have h2 := ih s.next_ch (by simpa [Lexer.next_ch_source] using hwf.2)
        rw [Lexer.next_ch_source] at h2
        simp only [hc, if_false]
        exact ⟨hwf.1.trans h2.1, h2.2⟩

theorem Lexer.nan_go_source :
    ∀ (fuel : Nat) (s : Lexer), (Lexer.nan_go fuel s).source = s.source := by
  intro fuel
  induction fuel with
  | zero => intro s; rfl
  | succ n ih =>
    intro s
    unfold Lexer.nan_go
    cases h : (s.next_ch).lookahead with
    | none => simp [h]
    | some c =>
      simp only [h]
      by_cases hc : c = ':'
      · simp [hc]
      · simpa [hc] using (ih s.next_ch).trans (Lexer.next_ch_source s)

theorem Lexer.nan_go_pos :
    ∀ (fuel : Nat) (s : Lexer), s.pos ≤ s.source.length →
      s.pos ≤ (Lexer.nan_go fuel s).pos ∧ (Lexer.nan_go fuel s).pos ≤ s.source.length := by
  intro fuel
  induction fuel with
  | zero => intro s h; exact ⟨le_refl _, h⟩
  | succ n ih =>
    intro s h
    have hwf := Lexer.next_ch_wf h
    unfold Lexer.nan_go
    cases hla : (s.next_ch).lookahead with
    | none => simpa [hla] using hwf
    | some c =>
      simp only [hla]
      by_cases hc : c = ':'
      · simpa [hc] using hwf
      · have h2 := ih s.next_ch (by simpa [Lexer.next_ch_source] using hwf.2)
        rw [Lexer.next_ch_source] at h2
        simp only [hc, if_false]
        exact ⟨hwf.1.trans h2.1, h2.2⟩

theorem Lexer.num_go_source :
    ∀ (fuel : Nat) (s : Lexer), ((Lexer.num_go fuel s).1).source = s.source := by
  intro fuel
  induction fuel with
  | zero => intro s; rfl
  | succ n ih =>
    intro s
    unfold Lexer.num_go
    cases h : (s.next_ch).lookahead with
    | none => simp [h]
    | some c =>
      simp only [h]
      by_cases h1 : c = '-' ∨ c = '_'
      · simpa [h1] using (ih s.next_ch).trans (Lexer.next_ch_source s)
      · by_cases h2 : c = '.'
        · simpa [h1, h2] using (ih s.next_ch).trans (Lexer.next_ch_source s)
        · by_cases h3 : rust_is_alphanumeric c
          · simpa [h1, h2, h3] using (ih s.next_ch).trans (Lexer.next_ch_source s)
          · simp [h1, h2, h3]

theorem Lexer.num_go_pos :
    ∀ (fuel : Nat) (s : Lexer), s.pos ≤ s.source.length →
      s.pos ≤ ((Lexer.num_go fuel s).1).pos ∧
        ((Lexer.num_go fuel s).1).pos ≤ s.source.length := by
  intro fuel
  induction fuel with
  | zero => intro s h; exact ⟨le_refl _, h⟩
  | succ n ih =>
    intro s h
    have hwf := Lexer.next_ch_wf h
    have h2 := ih s.next_ch (by simpa [Lexer.next_ch_source] using hwf.2)
    rw [Lexer.next_ch_source] at h2
    unfold Lexer.num_go
    cases hla : (s.next_ch).lookahead with
    | none => simpa [hla] using hwf
    | some c =>
      simp only [hla]
      by_cases hc1 : c = '-' ∨ c = '_'
      · simpa [hc1] using ⟨hwf.1.trans h2.1, h2.2⟩
      · by_cases hc2 : c = '.'
        · simpa [hc1, hc2] using ⟨hwf.1.trans h2.1, h2.2⟩
        · by_cases hc3 : rust_is_alphanumeric c
          · simpa [hc1, hc2, hc3] using ⟨hwf.1.trans h2.1, h2.2⟩
          · simpa [hc1, hc2, hc3] using hwf

theorem Lexer.word_go_source :
    ∀ (fuel : Nat) (s : Lexer), (Lexer.word_go fuel s).source = s.source := by
  intro fuel
  induction fuel with
  | zero => intro s; rfl
  | succ n ih =>
    intro s
    unfold Lexer.word_go
    cases h : (s.next_ch).lookahead with
    | none => simp [h]
    | some c =>
      simp only [h]
      by_cases h1 : c = '_'
      · simpa [h1] using (ih s.next_ch).trans (Lexer.next_ch_source s)
      · by_cases h2 : rust_is_alphanumeric c
        · simpa [h1, h2] using (ih s.next_ch).trans (Lexer.next_ch_source s)
        · simp [h1, h2]

theorem Lexer.word_go_pos :
    ∀ (fuel : Nat) (s : Lexer), s.pos ≤ s.source.length →
      s.pos ≤ (Lexer.word_go fuel s).pos ∧ (Lexer.word_go fuel s).pos ≤ s.source.length := by
  intro fuel
  induction fuel with
  | zero => intro s h; exact ⟨le_refl _, h⟩
  | succ n ih =>
    intro s h
    have hwf := Lexer.next_ch_wf h
    have h2 := ih s.next_ch (by simpa [Lexer.next_ch_source] using hwf.2)
    rw [Lexer.next_ch_source] at h2
    unfold Lexer.word_go
    cases hla : (s.next_ch).lookahead with
    | none => simpa [hla] using hwf
    | some c =>
      simp only [hla]
      by_cases hc1 : c = '_'
      · simpa [hc1] using ⟨hwf.1.trans h2.1, h2.2⟩
      · by_cases hc2 : rust_is_alphanumeric c
        · simpa [hc1, hc2] using ⟨hwf.1.trans h2.1, h2.2⟩
        · simpa [hc1, hc2] using hwf

/-! ### Strict progress: every scan step consumes at least one character -/

theorem Lexer.rol_go_progress (b fuel : Nat) {s : Lexer} (h : s.pos < s.source.length) :
    s.pos < ((Lexer.rol_go b (fuel + 1) s).2).pos := by
  have hp : (s.next_ch).pos = s.pos + 1 := Lexer.next_ch_pos_of_lt h
  have hwf : (s.next_ch).pos ≤ (s.next_ch).source.length := by
    rw [Lexer.next_ch_source, hp]; omega
  unfold Lexer.rol_go
  cases hla : (s.next_ch).lookahead with
  | none => simp [hla, hp]
  | some c =>
    simp only [hla]
    by_cases hc : c = '\n'
    · simp [hc, hp]
    · have h2 := (Lexer.rol_go_pos b fuel _ hwf).1
      simp only [hc, if_false]
      omega

theorem Lexer.nan_go_progress (fuel : Nat) {s : Lexer} (h : s.pos < s.source.length) :
    s.pos < (Lexer.nan_go (fuel + 1) s).pos := by
  have hp : (s.next_ch).pos = s.pos + 1 := Lexer.next_ch_pos_of_lt h
  have hwf : (s.next_ch).pos ≤ (s.next_ch).source.length := by
    rw [Lexer.next_ch_source, hp]; omega
  unfold Lexer.nan_go
  cases hla : (s.next_ch).lookahead with
  | none => simp [hla, hp]
  | some c =>
    simp only [hla]
    by_cases hc : c = ':'
    · simp [hc, hp]
    · have h2 := (Lexer.nan_go_pos fuel _ hwf).1
      simp only [hc, if_false]
      omega

theorem Lexer.num_go_progress (fuel : Nat) {s : Lexer} (h : s.pos < s.source.length) :
    s.pos < ((Lexer.num_go (fuel + 1) s).1).pos := by
  have hp : (s.next_ch).pos = s.pos + 1 := Lexer.next_ch_pos_of_lt h
  have hwf : (s.next_ch).pos ≤ (s.next_ch).source.length := by
    rw [Lexer.next_ch_source, hp]; omega
  have h2 := (Lexer.num_go_pos fuel s.next_ch hwf).1
  unfold Lexer.num_go
  cases hla : (s.next_ch).lookahead with
  | none => simp [hla, hp]
  | some c =>
    simp only [hla]
    by_cases hc1 : c = '-' ∨ c = '_'
    · simp only [hc1, if_true]; omega
    · by_cases hc2 : c = '.'
      · rw [if_neg hc1, if_pos hc2]
        show s.pos < ((Lexer.num_go fuel s.next_ch).1, true).1.pos
        simp only
        omega
      · by_cases hc3 : rust_is_alphanumeric c
        · simp only [hc1, hc2, hc3, if_false, if_true]; omega
        · simp [hc1, hc2, hc3, hp]

theorem Lexer.word_go_progress (fuel : Nat) {s : Lexer} (h : s.pos < s.source.length) :
    s.pos < (Lexer.word_go (fuel + 1) s).pos := by
  have hp : (s.next_ch).pos = s.pos + 1 := Lexer.next_ch_pos_of_lt h
  have hwf : (s.next_ch).pos ≤ (s.next_ch).source.length := by
    rw [Lexer.next_ch_source, hp]; omega
  have h2 := (Lexer.word_go_pos fuel s.next_ch hwf).1
  unfold Lexer.word_go
  cases hla : (s.next_ch).lookahead with
  | none => simp [hla, hp]
  | some c =>
    simp only [hla]
    by_cases hc1 : c = '_'
    · simp only [hc1, if_true]; omega
    · by_cases hc2 : rust_is_alphanumeric c
      · simp only [hc1, hc2, if_false, if_true]; omega
      · simp [hc1, hc2, hp]

/-! ### Per-scan-function lemmas -/

theorem Lexer.scan_comment_state (s : Lexer) :
    ((s.scan_comment).2).source = s.source ∧
      (s.pos ≤ s.source.length →
        s.pos ≤ ((s.scan_comment).2).pos ∧ ((s.scan_comment).2).pos ≤ s.source.length) := by
  refine ⟨Lexer.rol_go_source _ _ _, fun h => Lexer.rol_go_pos _ _ _ h⟩

theorem Lexer.scan_comment_progress {s : Lexer} (h : s.pos < s.source.length) :
    s.pos < ((s.scan_comment).2).pos :=
  Lexer.rol_go_progress s.pos s.source.length h

theorem Lexer.num_loop_entry_state (s : Lexer) :
    (s.num_loop_entry).source = s.source ∧
      (s.pos ≤ s.source.length →
        s.pos ≤ (s.num_loop_entry).pos ∧ (s.num_loop_entry).pos ≤ s.source.length) := by
  simp only [Lexer.num_loop_entry]
  split
  case isTrue hm =>
    split
    case isTrue hn =>
      constructor
      · rw [Lexer.nan_go_source, Lexer.next_ch_source]
      · intro h
        have hwf := Lexer.next_ch_wf h
        have h2 := Lexer.nan_go_pos ((s.next_ch).source.length + 1) s.next_ch
          (by simpa using hwf.2)
        rw [Lexer.next_ch_source] at h2
        exact ⟨hwf.1.trans h2.1, h2.2⟩
    case isFalse hn =>
      exact ⟨Lexer.next_ch_source s, fun h => Lexer.next_ch_wf h⟩
  case isFalse hm =>
    split
    case isTrue hn =>
      constructor
      · rw [Lexer.nan_go_source]
      · intro h
        exact Lexer.nan_go_pos (s.source.length + 1) s h
    case isFalse hn =>
      exact ⟨rfl, fun h => ⟨le_refl s.pos, h⟩⟩

theorem Lexer.scan_number_snd (s : Lexer) :
    (s.scan_number).2 =
      (Lexer.num_go ((s.num_loop_entry).source.length + 1) s.num_loop_entry).1 := by
  simp only [Lexer.scan_number]
  split <;> rfl

theorem Lexer.scan_number_state (s : Lexer) :
    ((s.scan_number).2).source = s.source ∧
      (s.pos ≤ s.source.length →
        s.pos ≤ ((s.scan_number).2).pos ∧ ((s.scan_number).2).pos ≤ s.source.length) := by
  have hsrc : (s.num_loop_entry).source = s.source := (Lexer.num_loop_entry_state s).1
  rw [Lexer.scan_number_snd, hsrc]
  constructor
  · rw [Lexer.num_go_source, hsrc]
  · intro h
    have he := (Lexer.num_loop_entry_state s).2 h
    have h2 := Lexer.num_go_pos (s.source.length + 1) s.num_loop_entry
      (by rw [hsrc]; exact he.2)
    rw [hsrc] at h2
    exact ⟨he.1.trans h2.1, h2.2⟩

theorem Lexer.num_loop_entry_cases {s : Lexer} (h : s.pos < s.source.length) :
    s.pos < (s.num_loop_entry).pos ∨ s.num_loop_entry = s := by
  simp only [Lexer.num_loop_entry]
  split
  case isTrue hm =>
    have hp : (s.next_ch).pos = s.pos + 1 :=
      Lexer.next_ch_pos_of_lt (Lexer.lookahead_some_lt hm)
    split
    case isTrue hn =>
      left
      have h3 := Lexer.nan_go_pos ((s.next_ch).source.length + 1) s.next_ch
        (by rw [Lexer.next_ch_source, hp]; omega)
      omega
    case isFalse hn => left; omega
  case isFalse hm =>
    split
    case isTrue hn =>
      left
      exact Lexer.nan_go_progress s.source.length (s := s) h
    case isFalse hn => right; rfl

theorem Lexer.scan_number_progress {s : Lexer} (h : s.pos < s.source.length) :
    s.pos < ((s.scan_number).2).pos := by
  have hsrc : (s.num_loop_entry).source = s.source := (Lexer.num_loop_entry_state s).1
  rw [Lexer.scan_number_snd, hsrc]
  have he := (Lexer.num_loop_entry_state s).2 (le_of_lt h)
  rcases Nat.lt_or_ge (s.num_loop_entry).pos s.source.length with hlt | hge
  · have h2 : (s.num_loop_entry).pos <
        ((Lexer.num_go (s.source.length + 1) s.num_loop_entry).1).pos := by
      have := Lexer.num_go_progress (s := s.num_loop_entry) ((s.num_loop_entry).source.length)
        (by rw [hsrc]; exact hlt)
      rwa [hsrc] at this
    omega
  · rcases Lexer.num_loop_entry_cases h with hstrict | heq
    · have h2 := Lexer.num_go_pos (s.source.length + 1) s.num_loop_entry
        (by rw [hsrc]; omega)
      omega
    · rw [heq] at hge
      omega

theorem Lexer.scan_word_snd (s : Lexer) :
    (s.scan_word).2 = Lexer.word_go (s.source.length + 1) s := rfl

theorem Lexer.scan_word_state (s : Lexer) :
    ((s.scan_word).2).source = s.source ∧
      (s.pos ≤ s.source.length →
        s.pos ≤ ((s.scan_word).2).pos ∧ ((s.scan_word).2).pos ≤ s.source.length) := by
  rw [Lexer.scan_word_snd]
  exact ⟨Lexer.word_go_source _ _, fun h => Lexer.word_go_pos _ _ h⟩

theorem Lexer.scan_word_progress {s : Lexer} (h : s.pos < s.source.length) :
    s.pos < ((s.scan_word).2).pos := by
  rw [Lexer.scan_word_snd]
  exact Lexer.word_go_progress s.source.length h

theorem Lexer.scan_char_state (s : Lexer) (tok : Token) :
    ((s.scan_char tok).2).source = s.source ∧
      ((s.scan_char tok).2).pos = min (s.pos + 1) s.source.length :=
  ⟨rfl, rfl⟩

theorem Lexer.scan_chars2_state (s : Lexer) (tok : Token) :
    ((s.scan_chars2 tok).2).source = s.source ∧
      ((s.scan_chars2 tok).2).pos = min (min (s.pos + 1) s.source.length + 1) s.source.length :=
  ⟨rfl, rfl⟩

/-! ### Dispatch-level lemmas about `next` -/

theorem Lexer.nextGo_succ (n : Nat) (s : Lexer) (c : Char) (hla : s.lookahead = some c) :
    Lexer.nextGo (n + 1) s =
      if c = ';' then (some (s.scan_comment).1, (s.scan_comment).2)
      else if c = '(' then (some (s.scan_char Token.LPar).1, (s.scan_char Token.LPar).2)
      else if c = ')' then (some (s.scan_char Token.RPar).1, (s.scan_char Token.RPar).2)
      else if c = '\x7b' then
        (some (s.scan_char Token.LBrace).1, (s.scan_char Token.LBrace).2)
      else if c = '\x7d' then
        (some (s.scan_char Token.RBrace).1, (s.scan_char Token.RBrace).2)
      else if c = ',' then (some (s.scan_char Token.Comma).1, (s.scan_char Token.Comma).2)
      else if c = '.' then (some (s.scan_char Token.Dot).1, (s.scan_char Token.Dot).2)
      else if c = ':' then (some (s.scan_char Token.Colon).1, (s.scan_char Token.Colon).2)
      else if c = '=' then (some (s.scan_char Token.Equal).1, (s.scan_char Token.Equal).2)
      else if c = '-' then
        if s.looking_at ("->".toList) then
          (some (s.scan_chars2 Token.Arrow).1, (s.scan_chars2 Token.Arrow).2)
        else (some (s.scan_number).1, (s.scan_number).2)
      else if is_ascii_digit c then (some (s.scan_number).1, (s.scan_number).2)
      else if rust_is_alphabetic c then (some (s.scan_word).1, (s.scan_word).2)
      else if rust_is_whitespace c then Lexer.nextGo n s.next_ch
      else (some (Except.error ⟨LexError.InvalidChar, s.loc⟩), s.next_ch) := by
  conv_lhs => rw [Lexer.nextGo]
  rw [hla]

theorem Lexer.nextGo_zero (s : Lexer) : Lexer.nextGo 0 s = (none, s) := rfl

theorem Lexer.nextGo_succ_none (n : Nat) (s : Lexer) (hla : s.lookahead = none) :
    Lexer.nextGo (n + 1) s = (none, s) := by
  conv_lhs => rw [Lexer.nextGo]
  rw [hla]

theorem Lexer.nextGo_state :
    ∀ (fuel : Nat) (s : Lexer), ((Lexer.nextGo fuel s).2).source = s.source ∧
      (s.pos ≤ s.source.length →
        s.pos ≤ ((Lexer.nextGo fuel s).2).pos ∧
          ((Lexer.nextGo fuel s).2).pos ≤ s.source.length) := by
  intro fuel
  induction fuel with
  | zero => intro s; exact ⟨rfl, fun h => ⟨le_refl _, h⟩⟩
  | succ n ih =>
    intro s
    cases hla : s.lookahead with
    | none =>
      rw [Lexer.nextGo_succ_none n s hla]
      exact ⟨rfl, fun h => ⟨le_refl _, h⟩⟩
    | some c =>
      rw [Lexer.nextGo_succ n s c hla]
      have hlt : s.pos < s.source.length := Lexer.lookahead_some_lt hla
      have hchar : ∀ tok : Token, ((s.scan_char tok).2).source = s.source ∧
          (s.pos ≤ s.source.length →
            s.pos ≤ ((s.scan_char tok).2).pos ∧
              ((s.scan_char tok).2).pos ≤ s.source.length) := by
        intro tok
        have h2 := (Lexer.scan_char_state s tok).2
        exact ⟨(Lexer.scan_char_state s tok).1, fun h => by constructor <;> omega⟩
      by_cases h1 : c = ';'
      · rw [if_pos h1]; exact ⟨(Lexer.scan_comment_state s).1, (Lexer.scan_comment_state s).2⟩
      rw [if_neg h1]
      by_cases h2 : c = '('
      · rw [if_pos h2]; exact hchar Token.LPar
      rw [if_neg h2]
      by_cases h3 : c = ')'
      · rw [if_pos h3]; exact hchar Token.RPar
      rw [if_neg h3]
      by_cases h4 : c = '\x7b'
      · rw [if_pos h4]; exact hchar Token.LBrace
      rw [if_neg h4]
      by_cases h5 : c = '\x7d'
      · rw [if_pos h5]; exact hchar Token.RBrace
      rw [if_neg h5]
      by_cases h6 : c = ','
      · rw [if_pos h6]; exact hchar Token.Comma
      rw [if_neg h6]
      by_cases h7 : c = '.'
      · rw [if_pos h7]; exact hchar Token.Dot
      rw [if_neg h7]
      by_cases h8 : c = ':'
      · rw [if_pos h8]; exact hchar Token.Colon
      rw [if_neg h8]
      by_cases h9 : c = '='
      · rw [if_pos h9]; exact hchar Token.Equal
      rw [if_neg h9]
      by_cases h10 : c = '-'
      · rw [if_pos h10]
        by_cases h10a : s.looking_at ("->".toList) = true
        · rw [if_pos h10a]
          have h2 := (Lexer.scan_chars2_state s Token.Arrow).2
          refine ⟨(Lexer.scan_chars2_state s Token.Arrow).1, fun h => ?_⟩
          show s.pos ≤ ((s.scan_chars2 Token.Arrow).2).pos ∧
            ((s.scan_chars2 Token.Arrow).2).pos ≤ s.source.length
          omega
        · rw [if_neg h10a]
          exact ⟨(Lexer.scan_number_state s).1, (Lexer.scan_number_state s).2⟩
      rw [if_neg h10]
      by_cases h11 : is_ascii_digit c = true
      · rw [if_pos h11]
        exact ⟨(Lexer.scan_number_state s).1, (Lexer.scan_number_state s).2⟩
      rw [if_neg h11]
      by_cases h12 : rust_is_alphabetic c = true
      · rw [if_pos h12]
        exact ⟨(Lexer.scan_word_state s).1, (Lexer.scan_word_state s).2⟩
      rw [if_neg h12]
      by_cases h13 : rust_is_whitespace c = true
      · rw [if_pos h13]
        have h2 := ih s.next_ch
        rw [Lexer.next_ch_source] at h2
        refine ⟨h2.1, fun h => ?_⟩
        have hwf := Lexer.next_ch_wf h
        have h3 := h2.2 hwf.2
        exact ⟨hwf.1.trans h3.1, h3.2⟩
      rw [if_neg h13]
      refine ⟨rfl, fun h => Lexer.next_ch_wf h⟩

theorem Lexer.nextGo_progress :
    ∀ (fuel : Nat) (s : Lexer) (r : Except LocatedError LocatedToken),
      s.pos ≤ s.source.length → (Lexer.nextGo fuel s).1 = some r →
        s.pos < ((Lexer.nextGo fuel s).2).pos := by
  intro fuel
  induction fuel with
  | zero => intro s r _ hr; rw [Lexer.nextGo_zero] at hr; exact absurd hr (by simp)
  | succ n ih =>
    intro s r hle hr
    cases hla : s.lookahead with
    | none =>
      rw [Lexer.nextGo_succ_none n s hla] at hr
      exact absurd hr (by simp)
    | some c =>
      rw [Lexer.nextGo_succ n s c hla] at hr ⊢
      have hlt : s.pos < s.source.length := Lexer.lookahead_some_lt hla
      have hchar : ∀ tok : Token, s.pos < ((s.scan_char tok).2).pos := by
        intro tok
        have h2 := (Lexer.scan_char_state s tok).2
        omega
      by_cases h1 : c = ';'
      · rw [if_pos h1]; exact Lexer.scan_comment_progress hlt
      rw [if_neg h1] at hr ⊢
      by_cases h2 : c = '('
      · rw [if_pos h2]; exact hchar Token.LPar
      rw [if_neg h2] at hr ⊢
      by_cases h3 : c = ')'
      · rw [if_pos h3]; exact hchar Token.RPar
      rw [if_neg h3] at hr ⊢
      by_cases h4 : c = '\x7b'
      · rw [if_pos h4]; exact hchar Token.LBrace
      rw [if_neg h4] at hr ⊢
      by_cases h5 : c = '\x7d'
      · rw [if_pos h5]; exact hchar Token.RBrace
      rw [if_neg h5] at hr ⊢
      by_cases h6 : c = ','
      · rw [if_pos h6]; exact hchar Token.Comma
      rw [if_neg h6] at hr ⊢
      by_cases h7 : c = '.'
      · rw [if_pos h7]; exact hchar Token.Dot
      rw [if_neg h7] at hr ⊢
      by_cases h8 : c = ':'
      · rw [if_pos h8]; exact hchar Token.Colon
      rw [if_neg h8] at hr ⊢
      by_cases h9 : c = '='
      · rw [if_pos h9]; exact hchar Token.Equal
      rw [if_neg h9] at hr ⊢
      by_cases h10 : c = '-'
      · rw [if_pos h10]
        by_cases h10a : s.looking_at ("->".toList) = true
        · rw [if_pos h10a]
          have h2 := (Lexer.scan_chars2_state s Token.Arrow).2
          show s.pos < ((s.scan_chars2 Token.Arrow).2).pos
          omega
        · rw [if_neg h10a]
          exact Lexer.scan_number_progress hlt
      rw [if_neg h10] at hr ⊢
      by_cases h11 : is_ascii_digit c = true
      · rw [if_pos h11]; exact Lexer.scan_number_progress hlt
      rw [if_neg h11] at hr ⊢
      by_cases h12 : rust_is_alphabetic c = true
      · rw [if_pos h12]; exact Lexer.scan_word_progress hlt
      rw [if_neg h12] at hr ⊢
      by_cases h13 : rust_is_whitespace c = true
      · rw [if_pos h13] at hr ⊢
        have hwf := Lexer.next_ch_wf hle
        have hp : (s.next_ch).pos = s.pos + 1 := Lexer.next_ch_pos_of_lt hlt
        have h3 := ih s.next_ch r (by simpa using hwf.2) hr
        omega
      rw [if_neg h13]
      have hp : (s.next_ch).pos = s.pos + 1 := Lexer.next_ch_pos_of_lt hlt
      show s.pos < (s.next_ch).pos
      omega

theorem Lexer.nextGo_none_eof :
    ∀ (fuel : Nat) (s : Lexer), s.pos ≤ s.source.length →
      s.source.length - s.pos < fuel → (Lexer.nextGo fuel s).1 = none →
        ((Lexer.nextGo fuel s).2).pos = s.source.length := by
  intro fuel
  induction fuel with
  | zero => intro s _ h2 _; omega
  | succ n ih =>
    intro s hle hfuel hr
    cases hla : s.lookahead with
    | none =>
      rw [Lexer.nextGo_succ_none n s hla]
      have := (Lexer.lookahead_none_iff s).mp hla
      show s.pos = s.source.length
      omega
    | some c =>
      rw [Lexer.nextGo_succ n s c hla] at hr ⊢
      have hlt : s.pos < s.source.length := Lexer.lookahead_some_lt hla
      by_cases h1 : c = ';'
      · rw [if_pos h1] at hr; exact absurd hr (by simp)
      rw [if_neg h1] at hr ⊢
      by_cases h2 : c = '('
      · rw [if_pos h2] at hr; exact absurd hr (by simp)
      rw [if_neg h2] at hr ⊢
      by_cases h3 : c = ')'
      · rw [if_pos h3] at hr; exact absurd hr (by simp)
      rw [if_neg h3] at hr ⊢
      by_cases h4 : c = '\x7b'
      · rw [if_pos h4] at hr; exact absurd hr (by simp)
      rw [if_neg h4] at hr ⊢
      by_cases h5 : c = '\x7d'
      · rw [if_pos h5] at hr; exact absurd hr (by simp)
      rw [if_neg h5] at hr ⊢
      by_cases h6 : c = ','
      · rw [if_pos h6] at hr; exact absurd hr (by simp)
      rw [if_neg h6] at hr ⊢
      by_cases h7 : c = '.'
      · rw [if_pos h7] at hr; exact absurd hr (by simp)
      rw [if_neg h7] at hr ⊢
      by_cases h8 : c = ':'
      · rw [if_pos h8] at hr; exact absurd hr (by simp)
      rw [if_neg h8] at hr ⊢
      by_cases h9 : c = '='
      · rw [if_pos h9] at hr; exact absurd hr (by simp)
      rw [if_neg h9] at hr ⊢
      by_cases h10 : c = '-'
      · rw [if_pos h10] at hr
        by_cases h10a : s.looking_at ("->".toList) = true
        · rw [if_pos h10a] at hr; exact absurd hr (by simp)
        · rw [if_neg h10a] at hr; exact absurd hr (by simp)
      rw [if_neg h10] at hr ⊢
      by_cases h11 : is_ascii_digit c = true
      · rw [if_pos h11] at hr; exact absurd hr (by simp)
      rw [if_neg h11] at hr ⊢
      by_cases h12 : rust_is_alphabetic c = true
      · rw [if_pos h12] at hr; exact absurd hr (by simp)
      rw [if_neg h12] at hr ⊢
      by_cases h13 : rust_is_whitespace c = true
      · rw [if_pos h13] at hr ⊢
        have hp : (s.next_ch).pos = s.pos + 1 := Lexer.next_ch_pos_of_lt hlt
        have h14 := ih s.next_ch (by simp only [Lexer.next_ch_source]; omega)
          (by simp only [Lexer.next_ch_source]; omega) hr
        rw [Lexer.next_ch_source] at h14
        exact h14
      rw [if_neg h13] at hr
      exact absurd hr (by simp)

theorem Lexer.next_state (s : Lexer) :
    ((s.next).2).source = s.source ∧
      (s.pos ≤ s.source.length →
        s.pos ≤ ((s.next).2).pos ∧ ((s.next).2).pos ≤ s.source.length) :=
  Lexer.nextGo_state (s.source.length + 1) s

theorem Lexer.next_progress {s : Lexer} {r : Except LocatedError LocatedToken}
    (h : s.pos ≤ s.source.length) (hr : (s.next).1 = some r) :
    s.pos < ((s.next).2).pos :=
  Lexer.nextGo_progress (s.source.length + 1) s r h hr

theorem Lexer.next_none_eof {s : Lexer} (h : s.pos ≤ s.source.length)
    (hr : (s.next).1 = none) : ((s.next).2).pos = s.source.length :=
  Lexer.nextGo_none_eof (s.source.length + 1) s h (by omega) hr

theorem Lexer.next_at_eof {s : Lexer} (h : s.pos = s.source.length) :
    s.next = (none, s) :=
  Lexer.nextGo_succ_none s.source.length s
    ((Lexer.lookahead_none_iff s).mpr (le_of_eq h.symm))

/-! ### Iterated calls to `next` -/

theorem Lexer.iterN_add (m n : Nat) (s : Lexer) :
    Lexer.iterN (n + m) s = Lexer.iterN m (Lexer.iterN n s) := by
  induction n generalizing s with
  | zero => rw [Nat.zero_add]; rfl
  | succ k ih =>
    have : k + 1 + m = (k + m) + 1 := by omega
    rw [this]
    show Lexer.iterN (k + m) ((s.next).2) = _
    rw [ih]
    rfl

theorem Lexer.iterN_state (n : Nat) (s : Lexer) :
    (Lexer.iterN n s).source = s.source ∧
      (s.pos ≤ s.source.length →
        s.pos ≤ (Lexer.iterN n s).pos ∧ (Lexer.iterN n s).pos ≤ s.source.length) := by
  induction n generalizing s with
  | zero => exact ⟨rfl, fun h => ⟨le_refl _, h⟩⟩
  | succ k ih =>
    have h1 := Lexer.next_state s
    have h2 := ih (s.next).2
    rw [h1.1] at h2
    refine ⟨h2.1, fun h => ?_⟩
    have h3 := h1.2 h
    have h4 := h2.2 h3.2
    exact ⟨h3.1.trans h4.1, h4.2⟩

theorem Lexer.eventually_none :
    ∀ (k : Nat) (s : Lexer), s.pos ≤ s.source.length → s.source.length - s.pos ≤ k →
      ∃ n, n ≤ k ∧ ((Lexer.iterN n s).next).1 = none := by
  intro k
  induction k with
  | zero =>
    intro s h hk
    have hp : s.pos = s.source.length := by omega
    exact ⟨0, le_refl _, by show (s.next).1 = none; rw [Lexer.next_at_eof hp]⟩
  | succ k ih =>
    intro s h hk
    cases hr : (s.next).1 with
    | none => exact ⟨0, by omega, by show (s.next).1 = none; exact hr⟩
    | some r =>
      have hstep := Lexer.next_progress h hr
      have hst := Lexer.next_state s
      have h2 := hst.2 h
      have hsrc := hst.1
      obtain ⟨n, hn, hnone⟩ := ih (s.next).2 (by rw [hsrc]; omega) (by rw [hsrc]; omega)
      exact ⟨n + 1, by omega, by show ((Lexer.iterN n ((s.next).2)).next).1 = none; exact hnone⟩

theorem Lexer.iterN_stable {s : Lexer} (h : s.pos = s.source.length) :
    ∀ m, Lexer.iterN m s = s := by
  intro m
  induction m with
  | zero => rfl
  | succ k ih =>
    show Lexer.iterN k ((s.next).2) = s
    rw [Lexer.next_at_eof h]
    exact ih

/-- C1: for every input, repeated calls to `next` eventually return `none`
(within `length + 1` calls), and the cursor positions of the successive calls
form a monotone chain starting at 0 and reaching exactly the total length, so
the consumed pieces `[pos i, pos (i+1))` are consecutive intervals that
partition the entire source: every character is consumed exactly once (as
token text, comment text, skipped whitespace, or a single invalid-character
error), and once `none` is returned every further call returns `none` as
well. -/
theorem claim_C1 (src : List Char) :
    (Lexer.new src).pos = 0 ∧
    (∀ i : Nat,
      (Lexer.iterN i (Lexer.new src)).pos ≤ (Lexer.iterN (i + 1) (Lexer.new src)).pos ∧
      (Lexer.iterN i (Lexer.new src)).source = src ∧
      (Lexer.iterN i (Lexer.new src)).pos ≤ src.length) ∧
    ∃ n, n ≤ src.length ∧
      ((Lexer.iterN n (Lexer.new src)).next).1 = none ∧
      (((Lexer.iterN n (Lexer.new src)).next).2).pos = src.length ∧
      ∀ m, ((Lexer.iterN (n + m) (Lexer.new src)).next).1 = none := by
  have hnew : (Lexer.new src).pos = 0 := rfl
  have hsrcnew : (Lexer.new src).source = src := rfl
  have hwfnew : (Lexer.new src).pos ≤ (Lexer.new src).source.length := by
    rw [hnew]; exact Nat.zero_le _
  refine ⟨rfl, ?_, ?_⟩
  · intro i
    have hst := Lexer.iterN_state i (Lexer.new src)
    have hwf := hst.2 hwfnew
    have hsrc : (Lexer.iterN i (Lexer.new src)).source = src := by rw [hst.1, hsrcnew]
    have hstep : Lexer.iterN (i + 1) (Lexer.new src) =
        ((Lexer.iterN i (Lexer.new src)).next).2 := by
      rw [Lexer.iterN_add 1 i (Lexer.new src)]
      rfl
    have hns := Lexer.next_state (Lexer.iterN i (Lexer.new src))
    have hmono := (hns.2 (by rw [hsrc]; rw [hsrcnew] at hwf; exact hwf.2)).1
    rw [hstep]
    refine ⟨hmono, hsrc, ?_⟩
    rw [hsrcnew] at hwf
    exact hwf.2
  · obtain ⟨n, hn, hnone⟩ :=
      Lexer.eventually_none src.length (Lexer.new src) hwfnew (by rw [hsrcnew, hnew]; omega)
    have hst := Lexer.iterN_state n (Lexer.new src)
    have hsrc : (Lexer.iterN n (Lexer.new src)).source = src := by rw [hst.1, hsrcnew]
    have hwf := hst.2 hwfnew
    rw [hsrcnew] at hwf
    have heof := Lexer.next_none_eof (s := Lexer.iterN n (Lexer.new src))
      (by rw [hsrc]; exact hwf.2) hnone
    rw [hsrc] at heof
    refine ⟨n, hn, hnone, heof, ?_⟩
    intro m
    have hstep : Lexer.iterN (n + 1) (Lexer.new src) =
        ((Lexer.iterN n (Lexer.new src)).next).2 := by
      rw [Lexer.iterN_add 1 n (Lexer.new src)]
      rfl
    have hsrc2 : (Lexer.iterN (n + 1) (Lexer.new src)).source = src := by
      rw [(Lexer.iterN_state (n + 1) (Lexer.new src)).1, hsrcnew]
    have hpos2 : (Lexer.iterN (n + 1) (Lexer.new src)).pos =
        (Lexer.iterN (n + 1) (Lexer.new src)).source.length := by
      rw [hsrc2, hstep, heof]
    cases m with
    | zero => exact hnone
    | succ k =>
      have : n + (k + 1) = (n + 1) + k := by omega
      rw [this, Lexer.iterN_add k (n + 1) (Lexer.new src),
        Lexer.iterN_stable hpos2 k]
      show ((Lexer.iterN (n + 1) (Lexer.new src)).next).1 = none
      rw [Lexer.next_at_eof hpos2]

/-- C2: scanning the word `v0` yields the direct-numbered value reference 0;
`v00` falls back to Identifier (zero-padded tail rejected); `vx1` yields the
table-numbered value reference 1, distinct from the direct reference 1;
`ebb1234567890` yields the block label numbered 1234567890; `ebb5234567890`
falls back to Identifier (the tail does not fit an unsigned 32-bit number). -/
theorem claim_C2 :
    tokenize "v0" = [Except.ok ⟨Token.Value (Value.direct 0), 1⟩] ∧
    tokenize "v00" = [Except.ok ⟨Token.Identifier ("v00".toList), 1⟩] ∧
    tokenize "vx1" = [Except.ok ⟨Token.Value (Value.table 1), 1⟩] ∧
    Value.table 1 ≠ Value.direct 1 ∧
    tokenize "ebb1234567890" = [Except.ok ⟨Token.Ebb 1234567890, 1⟩] ∧
    tokenize "ebb5234567890" =
      [Except.ok ⟨Token.Identifier ("ebb5234567890".toList), 1⟩] := by
  decide

/-- C7 counterexample: the claim says scanning the input `NaN` yields a Float
token (and likewise `Inf`), but the dispatcher routes an alphabetic lookahead
to word scanning, so both inputs lex as Identifier tokens instead. -/
theorem claim_C7_counterexample :
    tokenize "NaN" = [Except.ok ⟨Token.Identifier ("NaN".toList), 1⟩] ∧
    tokenize "Inf" = [Except.ok ⟨Token.Identifier ("Inf".toList), 1⟩] := by
  decide

/-- C7 (amended): the bare keywords NaN and Inf mark a literal floating point
only inside number scanning: `scan_number` at `NaN` or `Inf` yields a Float
token with exactly that text, and scanning `-NaN` or `-Inf` (which reach
`scan_number` through the `-` dispatch) yields Float `-NaN` / `-Inf`; but
`next()` routes the bare words `NaN` and `Inf` to word scanning, which yields
Identifier tokens. -/
theorem claim_C7 :
    ((Lexer.new ("NaN".toList)).scan_number).1 =
      Except.ok ⟨Token.Float ("NaN".toList), 1⟩ ∧
    ((Lexer.new ("Inf".toList)).scan_number).1 =
      Except.ok ⟨Token.Float ("Inf".toList), 1⟩ ∧
    tokenize "-NaN" = [Except.ok ⟨Token.Float ("-NaN".toList), 1⟩] ∧
    tokenize "-Inf" = [Except.ok ⟨Token.Float ("-Inf".toList), 1⟩] ∧
    tokenize "NaN" = [Except.ok ⟨Token.Identifier ("NaN".toList), 1⟩] ∧
    tokenize "Inf" = [Except.ok ⟨Token.Identifier ("Inf".toList), 1⟩] := by
  decide

/-- C4: whenever the lookahead character matches no dispatch case (it is not
`;`, not one of the eight single punctuation characters, not `-`, not an
ASCII digit, not alphabetic and not whitespace), `next` consumes exactly that
one character and returns an InvalidChar error carrying the current line
number; concretely, a stray `#` followed by a valid comment yields exactly
one InvalidChar error at that character and then the comment token. -/
theorem claim_C4 :
    (∀ (s : Lexer) (c : Char), s.lookahead = some c →
      c ∉ [';', '(', ')', '\x7b', '\x7d', ',', '.', ':', '='] →
      c ≠ '-' →
      is_ascii_digit c = false →
      rust_is_alphabetic c = false →
      rust_is_whitespace c = false →
      s.next = (some (Except.error ⟨LexError.InvalidChar, s.line_number⟩), s.next_ch)) ∧
    tokenize "#; hello" =
      [Except.error ⟨LexError.InvalidChar, 1⟩,
        Except.ok ⟨Token.Comment ("; hello".toList), 1⟩] := by
  constructor
  · intro s c hla hpunct hminus hdig halpha hws
    simp only [List.mem_cons, List.not_mem_nil, or_false, not_or] at hpunct
    obtain ⟨n1, n2, n3, n4, n5, n6, n7, n8, n9⟩ := hpunct
    show Lexer.nextGo (s.source.length + 1) s = _
    rw [Lexer.nextGo_succ s.source.length s c hla]
    rw [if_neg n1, if_neg n2, if_neg n3, if_neg n4, if_neg n5, if_neg n6, if_neg n7,
      if_neg n8, if_neg n9, if_neg hminus, if_neg (by rw [hdig]; exact Bool.false_ne_true),
      if_neg (by rw [halpha]; exact Bool.false_ne_true),
      if_neg (by rw [hws]; exact Bool.false_ne_true)]
    rfl
  · decide

/-- Witness for C4 at the concrete state over the input `#`. -/
theorem claim_C4_witness :
    (Lexer.new ("#".toList)).next =
      (some (Except.error ⟨LexError.InvalidChar, 1⟩), (Lexer.new ("#".toList)).next_ch) :=
  claim_C4.1 (Lexer.new ("#".toList)) '#' (by decide) (by decide) (by decide) (by decide)
    (by decide) (by decide)

/-! ### Structure of the trailing digit run -/

theorem trailing_digits_le (name : List Char) : trailing_digits name ≤ name.length := by
  unfold trailing_digits
  calc (name.reverse.takeWhile is_ascii_digit).length
      ≤ name.reverse.length := (List.takeWhile_prefix _).length_le
    _ = name.length := List.length_reverse _

theorem trailing_decomp (name : List Char) :
    name.drop (name.length - trailing_digits name) =
      (name.reverse.takeWhile is_ascii_digit).reverse := by
  show List.rtake name (trailing_digits name) = _
  rw [List.rtake_eq_reverse_take_reverse]
  congr 1
  exact (List.prefix_iff_eq_take.mp (List.takeWhile_prefix _)).symm

theorem trailing_length (name : List Char) :
    (name.drop (name.length - trailing_digits name)).length = trailing_digits name := by
  have := trailing_digits_le name
  rw [List.length_drop]
  omega

theorem trailing_all_digits (name : List Char) :
    (name.drop (name.length - trailing_digits name)).all is_ascii_digit = true := by
  rw [trailing_decomp]
  rw [List.all_eq_true]
  intro c hc
  rw [List.mem_reverse] at hc
  exact List.mem_takeWhile_imp hc

/-- C6: the five concrete splits of the spec, and in general a successful
split separates the head from the maximal trailing run of ASCII decimal
digits, whose decimal value, below 2^32, is the returned number. -/
theorem claim_C6 :
    split_entity_name ("x1".toList) = some ("x".toList, 1) ∧
    split_entity_name ("xy0".toList) = some ("xy".toList, 0) ∧
    split_entity_name ("inst01".toList) = none ∧
    split_entity_name ("x".toList) = none ∧
    split_entity_name ("1".toList) = some ([], 1) ∧
    (∀ (name hd : List Char) (n : Nat), split_entity_name name = some (hd, n) →
      hd = name.take (name.length - trailing_digits name) ∧
      n = digitsVal (name.drop (name.length - trailing_digits name)) ∧
      n < 2 ^ 32 ∧ 1 ≤ trailing_digits name ∧
      (name.drop (name.length - trailing_digits name)).all is_ascii_digit = true) := by
  refine ⟨by decide, by decide, by decide, by decide, by decide, ?_⟩
  intro name hd n hsp
  simp only [split_entity_name] at hsp
  split at hsp
  · exact absurd hsp (by simp)
  · simp only [parse_u32] at hsp
    split at hsp
    case isTrue h =>
      rcases h with ⟨hne, _, hlt⟩
      rw [Option.map_some'] at hsp
      injection hsp with hp
      have hk : 1 ≤ trailing_digits name := by
        by_contra hzero
        have h0 : trailing_digits name = 0 := by omega
        exact hne (List.eq_nil_of_length_eq_zero
          (by rw [trailing_length name]; exact h0))
      cases hp
      exact ⟨rfl, rfl, hlt, hk, trailing_all_digits name⟩
    case isFalse h =>
      exact absurd hsp (by simp)

/-- Witness for C6 (general part) at the concrete name `x1`. -/
theorem claim_C6_witness :
    "x".toList = "x1".toList.take ("x1".toList.length - trailing_digits ("x1".toList)) ∧
    (1 : Nat) = digitsVal ("x1".toList.drop ("x1".toList.length -
      trailing_digits ("x1".toList))) :=
  have h := claim_C6.2.2.2.2.2 ("x1".toList) ("x".toList) 1 (by decide)
  ⟨h.1, h.2.1⟩

/-- C10: the head is returned unchanged whatever its characters (`x+1` splits
as `("x+", 1)`); a trailing run whose value exceeds the unsigned 32-bit
maximum makes splitting fail (`a4294967296`); and in general, whenever the
maximal trailing digit run is nonempty, not zero-padded, and its value fits
in 32 bits, splitting succeeds with exactly that head and value. -/
theorem claim_C10 :
    split_entity_name ("x+1".toList) = some ("x+".toList, 1) ∧
    split_entity_name ("a4294967296".toList) = none ∧
    (∀ name : List Char, 1 ≤ trailing_digits name →
      (1 < trailing_digits name →
        (name.drop (name.length - trailing_digits name)).head? ≠ some '0') →
      digitsVal (name.drop (name.length - trailing_digits name)) < 2 ^ 32 →
      split_entity_name name =
        some (name.take (name.length - trailing_digits name),
          digitsVal (name.drop (name.length - trailing_digits name)))) := by
  refine ⟨by decide, by decide, ?_⟩
  intro name hk hzero hlt
  have hlen := trailing_length name
  simp only [split_entity_name]
  rw [if_neg ?_]
  · simp only [parse_u32]
    rw [if_pos ?_]
    · rfl
    · refine ⟨?_, trailing_all_digits name, hlt⟩
      intro hnil
      rw [hnil] at hlen
      simp at hlen
      omega
  · intro hcon
    rw [hlen] at hcon
    exact hzero hcon.1 hcon.2

/-- Witness for C10 (general part) at the concrete name `x+1`. -/
theorem claim_C10_witness :
    split_entity_name ("x+1".toList) =
      some ("x+1".toList.take ("x+1".toList.length - trailing_digits ("x+1".toList)),
        digitsVal ("x+1".toList.drop ("x+1".toList.length -
          trailing_digits ("x+1".toList)))) :=
  claim_C10.2.2 ("x+1".toList) (by decide) (fun _ => by decide) (by decide)

/-! ### Word scanning never errors and the type-decode failure paths -/

theorem Lexer.scan_word_ok (s : Lexer) :
    ∃ t : LocatedToken, (s.scan_word).1 = Except.ok t := by
  exact ⟨_, rfl⟩

theorem value_type_fail (text pfx : List Char) (n : Nat)
    (hvec : pfx.getLast? = some 'x')
    (hfail : 65535 < n ∨ base_type_of (pfx.take (pfx.length - 1)) = none ∨
      ∀ bt, base_type_of (pfx.take (pfx.length - 1)) = some bt → type_by bt n = none) :
    value_type text pfx n = none := by
  simp only [value_type]
  rw [if_pos hvec]
  cases hbt : base_type_of (pfx.take (pfx.length - 1)) with
  | none => rfl
  | some bt =>
    show (if pfx.getLast? = some 'x' then
        (if n ≤ 65535 then Option.map Token.Typ (type_by bt n) else none)
      else some (Token.Typ ⟨bt, 1⟩)) = none
    rw [if_pos hvec]
    rcases hfail with hn | hnone | hby
    · rw [if_neg (by omega)]
    · exact absurd hbt (by rw [hnone]; exact fun h => Option.noConfusion h)
    · by_cases hle : n ≤ 65535
      · rw [if_pos hle, hby bt hbt]
        rfl
      · rw [if_neg hle]

theorem decode_fallback (text pfx : List Char) (n : Nat)
    (hsp : split_entity_name text = some (pfx, n))
    (hnum : numbered_entity pfx n = none)
    (hvt : value_type text pfx n = none) :
    (split_entity_name text |>.bind fun p =>
        (numbered_entity p.1 p.2).orElse fun _ => value_type text p.1 p.2).getD
      (Token.Identifier text) = Token.Identifier text := by
  rw [hsp]
  show (((numbered_entity pfx n).orElse fun _ => value_type text pfx n)).getD _ = _
  rw [hnum]
  show (value_type text pfx n).getD _ = _
  rw [hvt]
  rfl

theorem Lexer.scan_word_fst (s : Lexer) :
    (s.scan_word).1 = Except.ok
      ⟨(split_entity_name
            (slice s.source s.pos ((Lexer.word_go (s.source.length + 1) s).pos))
          |>.bind fun p => (numbered_entity p.1 p.2).orElse fun _ =>
            value_type
              (slice s.source s.pos ((Lexer.word_go (s.source.length + 1) s).pos))
              p.1 p.2).getD
          (Token.Identifier
            (slice s.source s.pos ((Lexer.word_go (s.source.length + 1) s).pos))),
        s.line_number⟩ := by
  simp only [Lexer.scan_word]
  rw [Lexer.word_go_source]
  rfl

theorem Lexer.scan_word_fallback (s : Lexer) (pfx : List Char) (n : Nat)
    (hsp : split_entity_name (slice s.source s.pos (((s.scan_word).2).pos)) =
      some (pfx, n))
    (hnum : numbered_entity pfx n = none)
    (hvt : value_type (slice s.source s.pos (((s.scan_word).2).pos)) pfx n = none) :
    (s.scan_word).1 = Except.ok
      ⟨Token.Identifier (slice s.source s.pos (((s.scan_word).2).pos)),
        s.line_number⟩ := by
  rw [Lexer.scan_word_snd s] at hsp hvt ⊢
  rw [Lexer.scan_word_fst s]
  exact congrArg
    (fun t : Token =>
      (Except.ok ⟨t, s.line_number⟩ : Except LocatedError LocatedToken))
    (decode_fallback _ pfx n hsp hnum hvt)

/-- C3: `b1` scans to the scalar boolean type of width 1, `i32x4` to the
vector of 4 lanes of 32-bit integer, and `f32x5` (whose lane count 5 makes
the vector construction fail) to the fallback Identifier; in general a vector
form whose lane count exceeds 65535, or whose base name is unrecognised, or
whose vector construction fails decodes to nothing, so in combination with a
failed sigil lookup the word falls back to an Identifier token; word scanning
never returns a lexical error. -/
theorem claim_C3 :
    tokenize "b1" = [Except.ok ⟨Token.Typ ⟨BaseType.b1, 1⟩, 1⟩] ∧
    BaseType.laneBits BaseType.b1 = 1 ∧
    tokenize "i32x4" = [Except.ok ⟨Token.Typ ⟨BaseType.i32, 4⟩, 1⟩] ∧
    tokenize "f32x5" = [Except.ok ⟨Token.Identifier ("f32x5".toList), 1⟩] ∧
    (∀ (text pfx : List Char) (n : Nat), pfx.getLast? = some 'x' →
      (65535 < n ∨ base_type_of (pfx.take (pfx.length - 1)) = none ∨
        ∀ bt, base_type_of (pfx.take (pfx.length - 1)) = some bt →
          type_by bt n = none) →
      value_type text pfx n = none) ∧
    (∀ (s : Lexer) (pfx : List Char) (n : Nat),
      split_entity_name (slice s.source s.pos (((s.scan_word).2).pos)) =
        some (pfx, n) →
      numbered_entity pfx n = none →
      value_type (slice s.source s.pos (((s.scan_word).2).pos)) pfx n = none →
      (s.scan_word).1 = Except.ok
        ⟨Token.Identifier (slice s.source s.pos (((s.scan_word).2).pos)),
          s.line_number⟩) ∧
    (∀ s : Lexer, ∃ t : LocatedToken, (s.scan_word).1 = Except.ok t) :=
  ⟨by decide, rfl, by decide, by decide, value_type_fail,
    Lexer.scan_word_fallback, Lexer.scan_word_ok⟩

/-- Witness for C3 (general parts) at the concrete word `f32x5`. -/
theorem claim_C3_witness :
    value_type ("f32x5".toList) ("f32x".toList) 5 = none ∧
    ((Lexer.new ("f32x5".toList)).scan_word).1 = Except.ok
      ⟨Token.Identifier (slice ("f32x5".toList) 0
        ((((Lexer.new ("f32x5".toList)).scan_word).2).pos)), 1⟩ :=
  ⟨claim_C3.2.2.2.2.1 ("f32x5".toList) ("f32x".toList) 5 (by decide)
      (Or.inr (Or.inr (fun bt hbt => by
        have he : base_type_of (("f32x".toList).take (("f32x".toList).length - 1)) =
            some BaseType.f32 := by decide
        rw [he] at hbt
        injection hbt with h
        rw [← h]
        decide))),
    claim_C3.2.2.2.2.2.1 (Lexer.new ("f32x5".toList)) ("f32x".toList) 5 (by decide)
      (by decide) (by decide)⟩

/-! ### Slices and the radix-point flag of the number loop -/

theorem slice_empty (l : List Char) {a b : Nat} (h : b ≤ a) : slice l a b = [] := by
  unfold slice
  rw [Nat.sub_eq_zero_of_le h]
  exact List.take_zero _

theorem slice_cons (l : List Char) {a b : Nat} (ha : a < l.length) (hab : a < b) :
    slice l a b = l[a] :: slice l (a + 1) b := by
  unfold slice
  rw [List.drop_eq_getElem_cons ha]
  rw [show b - a = (b - (a + 1)) + 1 from by omega]
  rfl

theorem Lexer.lookahead_get {s : Lexer} {c : Char} (h : s.lookahead = some c)
    (hl : s.pos < s.source.length) : s.source[s.pos] = c := by
  rw [Lexer.lookahead, List.getElem?_eq_getElem hl] at h
  injection h

theorem Lexer.num_go_succ (n : Nat) (s : Lexer) (c : Char)
    (hla : (s.next_ch).lookahead = some c) :
    Lexer.num_go (n + 1) s =
      if c = '-' ∨ c = '_' then Lexer.num_go n s.next_ch
      else if c = '.' then ((Lexer.num_go n s.next_ch).1, true)
      else if rust_is_alphanumeric c then Lexer.num_go n s.next_ch
      else (s.next_ch, false) := by
  conv_lhs => rw [Lexer.num_go]
  rw [hla]

theorem Lexer.num_go_succ_none (n : Nat) (s : Lexer)
    (hla : (s.next_ch).lookahead = none) :
    Lexer.num_go (n + 1) s = (s.next_ch, false) := by
  conv_lhs => rw [Lexer.num_go]
  rw [hla]

/-- The radix-point flag of the generic number loop is set exactly when a `.`
occurs among the source characters strictly after the loop's first consumed
character (those are the characters the loop actually examines). -/
theorem Lexer.num_go_flag :
    ∀ (fuel : Nat) (s : Lexer), s.pos ≤ s.source.length →
      s.source.length - s.pos < fuel →
      ((Lexer.num_go fuel s).2 = true ↔
        '.' ∈ slice s.source (s.pos + 1) ((Lexer.num_go fuel s).1).pos) := by
  intro fuel
  induction fuel with
  | zero => intro s h hf; omega
  | succ n ih =>
    intro s h hf
    cases hla2 : (s.next_ch).lookahead with
    | none =>
      rw [Lexer.num_go_succ_none n s hla2]
      show false = true ↔ '.' ∈ slice s.source (s.pos + 1) ((s.next_ch).pos)
      have hle : (s.next_ch).pos ≤ s.pos + 1 := by rw [Lexer.next_ch_pos]; omega
      rw [slice_empty s.source hle]
      simp
    | some c =>
      have hlt2 : (s.next_ch).pos < s.source.length := by
        have := Lexer.lookahead_some_lt hla2
        rwa [Lexer.next_ch_source] at this
      have hp : (s.next_ch).pos = s.pos + 1 := by
        rw [Lexer.next_ch_pos] at hlt2 ⊢
        omega
      have hwf2 : (s.next_ch).pos ≤ (s.next_ch).source.length := by
        rw [Lexer.next_ch_source]; omega
      have hfuel2 : (s.next_ch).source.length - (s.next_ch).pos < n := by
        rw [Lexer.next_ch_source, hp]; omega
      have hprog : (s.next_ch).pos < ((Lexer.num_go n s.next_ch).1).pos := by
        obtain ⟨m, rfl⟩ : ∃ m, n = m + 1 := by
          rw [Lexer.next_ch_source, hp] at hfuel2
          exact ⟨n - 1, by omega⟩
        exact Lexer.num_go_progress m hlt2
      have hchar : s.source[(s.next_ch).pos] = c := by
        have h2 := hla2
        rw [Lexer.lookahead, Lexer.next_ch_source] at h2
        rw [List.getElem?_eq_getElem hlt2] at h2
        injection h2
      have ihs := ih s.next_ch hwf2 hfuel2
      rw [Lexer.next_ch_source] at ihs
      have hdecomp : slice s.source ((s.next_ch).pos) ((Lexer.num_go n s.next_ch).1).pos =
          c :: slice s.source ((s.next_ch).pos + 1)
            ((Lexer.num_go n s.next_ch).1).pos := by
        rw [slice_cons s.source hlt2 hprog, hchar]
      rw [Lexer.num_go_succ n s c hla2]
      by_cases hc1 : c = '-' ∨ c = '_'
      · rw [if_pos hc1, ← hp, hdecomp, List.mem_cons]
        have hcne : ('.' : Char) ≠ c := by
          rcases hc1 with h1 | h1 <;> rw [h1] <;> decide
        constructor
        · intro hfl; exact Or.inr (ihs.mp hfl)
        · rintro (hh | hh)
          · exact absurd hh hcne
          · exact ihs.mpr hh
      rw [if_neg hc1]
      by_cases hc2 : c = '.'
      · rw [if_pos hc2]
        show true = true ↔
          '.' ∈ slice s.source (s.pos + 1) ((Lexer.num_go n s.next_ch).1).pos
        rw [← hp, hdecomp, hc2]
        simp
      rw [if_neg hc2]
      by_cases hc3 : rust_is_alphanumeric c = true
      · rw [if_pos hc3, ← hp, hdecomp, List.mem_cons]
        constructor
        · intro hfl; exact Or.inr (ihs.mp hfl)
        · rintro (hh | hh)
          · exact absurd hh.symm hc2
          · exact ihs.mpr hh
      rw [if_neg hc3]
      show false = true ↔ '.' ∈ slice s.source (s.pos + 1) ((s.next_ch).pos)
      rw [← hp, slice_empty s.source (le_refl _)]
      simp

theorem Lexer.scan_number_fst (s : Lexer) :
    (s.scan_number).1 =
      if (s.nan_fired || (Lexer.num_go ((s.num_loop_entry).source.length + 1)
          s.num_loop_entry).2) = true then
        Except.ok ⟨Token.Float (slice
            ((Lexer.num_go ((s.num_loop_entry).source.length + 1)
              s.num_loop_entry).1).source s.pos
            ((Lexer.num_go ((s.num_loop_entry).source.length + 1)
              s.num_loop_entry).1).pos),
          s.line_number⟩
      else
        Except.ok ⟨Token.Integer (slice
            ((Lexer.num_go ((s.num_loop_entry).source.length + 1)
              s.num_loop_entry).1).source s.pos
            ((Lexer.num_go ((s.num_loop_entry).source.length + 1)
              s.num_loop_entry).1).pos),
          s.line_number⟩ := by
  simp only [Lexer.scan_number]
  split <;> rfl

/-- C5 counterexample: the claim classifies a scanned number as Float exactly
when a `.` was consumed in the generic loop or the NaN/Inf branch fired; but
for the input `-.5` the `.` is the generic loop's first consumed character
(consumed without being examined, right after the leading sign), the NaN/Inf
branch does not fire, and the token is Integer `-.5`, not Float. -/
theorem claim_C5_counterexample :
    tokenize "-.5" = [Except.ok ⟨Token.Integer ("-.5".toList), 1⟩] ∧
    (Lexer.new ("-.5".toList)).nan_fired = false ∧
    '.' ∈ slice ("-.5".toList) (((Lexer.new ("-.5".toList)).num_loop_entry).pos)
      ((((Lexer.new ("-.5".toList)).scan_number).2).pos) := by
  decide

/-- C5 (amended): the seven concrete classifications hold with verbatim text,
and in general a scanned number is classified Float exactly when the NaN/Inf
branch fired or a `.` was matched by the generic loop as a newly fetched
lookahead, that is, a `.` occurring strictly after the loop's first consumed
character; a `.` that is the loop's first consumed character (reachable only
right after a leading `-`) is consumed without flipping the flag. -/
theorem claim_C5 :
    tokenize "0" = [Except.ok ⟨Token.Integer ("0".toList), 1⟩] ∧
    tokenize "2_000" = [Except.ok ⟨Token.Integer ("2_000".toList), 1⟩] ∧
    tokenize "-1" = [Except.ok ⟨Token.Integer ("-1".toList), 1⟩] ∧
    tokenize "0xf" = [Except.ok ⟨Token.Integer ("0xf".toList), 1⟩] ∧
    tokenize "-0x0" = [Except.ok ⟨Token.Integer ("-0x0".toList), 1⟩] ∧
    tokenize "0.0" = [Except.ok ⟨Token.Float ("0.0".toList), 1⟩] ∧
    tokenize "0x0.4p-34" = [Except.ok ⟨Token.Float ("0x0.4p-34".toList), 1⟩] ∧
    (∀ s : Lexer, s.pos ≤ s.source.length →
      (s.scan_number).1 = Except.ok
        ⟨(if s.nan_fired = true ∨
              '.' ∈ slice s.source (((s.num_loop_entry).pos) + 1)
                (((s.scan_number).2).pos) then
            Token.Float (slice s.source s.pos (((s.scan_number).2).pos))
          else
            Token.Integer (slice s.source s.pos (((s.scan_number).2).pos))),
          s.line_number⟩) := by
  refine ⟨by decide, by decide, by decide, by decide, by decide, by decide, by decide, ?_⟩
  intro s h
  have hsrc : (s.num_loop_entry).source = s.source := (Lexer.num_loop_entry_state s).1
  have hE := (Lexer.num_loop_entry_state s).2 h
  have hflag := Lexer.num_go_flag ((s.num_loop_entry).source.length + 1)
    s.num_loop_entry (by rw [hsrc]; exact hE.2) (by omega)
  rw [Lexer.scan_number_fst, Lexer.scan_number_snd, Lexer.num_go_source, hsrc] at *
  by_cases hcond : s.nan_fired = true ∨
      '.' ∈ slice s.source ((s.num_loop_entry).pos + 1)
        ((Lexer.num_go (s.source.length + 1) s.num_loop_entry).1).pos
  · rw [if_pos ?_, if_pos hcond]
    rw [Bool.or_eq_true]
    rcases hcond with hnan | hmem
    · exact Or.inl hnan
    · exact Or.inr (hflag.mpr hmem)
  · rw [if_neg ?_, if_neg hcond]
    rw [Bool.or_eq_true]
    rintro (hnan | hfl)
    · exact hcond (Or.inl hnan)
    · exact hcond (Or.inr (hflag.mp hfl))

/-- Witness for C5 (general part) at the fresh scanner over `0.0`. -/
theorem claim_C5_witness :
    ((Lexer.new ("0.0".toList)).scan_number).1 = Except.ok
      ⟨(if (Lexer.new ("0.0".toList)).nan_fired = true ∨
            '.' ∈ slice (Lexer.new ("0.0".toList)).source
              ((((Lexer.new ("0.0".toList)).num_loop_entry).pos) + 1)
              ((((Lexer.new ("0.0".toList)).scan_number).2).pos) then
          Token.Float (slice (Lexer.new ("0.0".toList)).source
            (Lexer.new ("0.0".toList)).pos
            ((((Lexer.new ("0.0".toList)).scan_number).2).pos))
        else
          Token.Integer (slice (Lexer.new ("0.0".toList)).source
            (Lexer.new ("0.0".toList)).pos
            ((((Lexer.new ("0.0".toList)).scan_number).2).pos))),
        (Lexer.new ("0.0".toList)).line_number⟩ :=
  claim_C5.2.2.2.2.2.2.2 (Lexer.new ("0.0".toList)) (by decide)

/-! ### What rest_of_line returns -/

theorem slice_append (l : List Char) {a m b : Nat} (h1 : a ≤ m) (h2 : m ≤ b) :
    slice l a b = slice l a m ++ slice l m b := by
  unfold slice
  rw [show b - a = (m - a) + (b - m) from by omega, List.take_add, List.drop_drop,
    show a + (m - a) = m from by omega]

theorem slice_snoc (l : List Char) {a p : Nat} (h1 : a ≤ p) (h2 : p < l.length) :
    slice l a (p + 1) = slice l a p ++ [l[p]] := by
  rw [slice_append l h1 (Nat.le_succ p), slice_cons l h2 (Nat.lt_succ_self p),
    slice_empty l (le_refl (p + 1))]

theorem Lexer.next_lookahead_get {s : Lexer} {c : Char}
    (h : (s.next_ch).lookahead = some c) (hlt : (s.next_ch).pos < s.source.length) :
    s.source[(s.next_ch).pos] = c := by
  rw [Lexer.lookahead, Lexer.next_ch_source] at h
  rw [List.getElem?_eq_getElem hlt] at h
  injection h

theorem Lexer.rol_go_succ (bb n : Nat) (s : Lexer) (c : Char)
    (hla : (s.next_ch).lookahead = some c) :
    Lexer.rol_go bb (n + 1) s =
      if c = '\n' then (slice (s.next_ch).source bb (s.next_ch).pos, s.next_ch)
      else Lexer.rol_go bb n s.next_ch := by
  conv_lhs => rw [Lexer.rol_go]
  rw [hla]

theorem Lexer.rol_go_succ_none (bb n : Nat) (s : Lexer)
    (hla : (s.next_ch).lookahead = none) :
    Lexer.rol_go bb (n + 1) s =
      (slice (s.next_ch).source bb (s.next_ch).pos, s.next_ch) := by
  conv_lhs => rw [Lexer.rol_go]
  rw [hla]

theorem Lexer.rol_go_spec (b : Nat) :
    ∀ (fuel : Nat) (s : Lexer), s.pos ≤ s.source.length →
      s.source.length - s.pos < fuel → b ≤ s.pos → s.lookahead ≠ some '\n' →
      (Lexer.rol_go b fuel s).1 =
        slice s.source b s.pos ++
          (s.source.drop s.pos).takeWhile (fun c => !(c == '\n')) ∧
      ((Lexer.rol_go b fuel s).2).pos =
        s.pos + ((s.source.drop s.pos).takeWhile (fun c => !(c == '\n'))).length := by
  intro fuel
  induction fuel with
  | zero => intro s h hf _ _; omega
  | succ n ih =>
    intro s h hf hb hnl
    rcases Nat.lt_or_ge s.pos s.source.length with hlt | hge
    · -- there is a character at the cursor, and it is not a newline
      obtain ⟨c0, hc0⟩ : ∃ c0, s.lookahead = some c0 := by
        cases hla : s.lookahead with
        | none =>
          rw [Lexer.lookahead_none_iff] at hla
          omega
        | some c0 => exact ⟨c0, rfl⟩
      have hc0get := Lexer.lookahead_get hc0 hlt
      have hc0ne : c0 ≠ '\n' := fun he => hnl (by rw [hc0, he])
      have hp : (s.next_ch).pos = s.pos + 1 := Lexer.next_ch_pos_of_lt hlt
      have hdrop : s.source.drop s.pos = c0 :: s.source.drop (s.pos + 1) := by
        rw [List.drop_eq_getElem_cons hlt, hc0get]
      have htake : (s.source.drop s.pos).takeWhile (fun c => !(c == '\n')) =
          c0 :: (s.source.drop (s.pos + 1)).takeWhile (fun c => !(c == '\n')) := by
        rw [hdrop, List.takeWhile_cons, if_pos (by simp [hc0ne])]
      cases hla2 : (s.next_ch).lookahead with
      | none =>
        rw [Lexer.rol_go_succ_none b n s hla2]
        have hend : (s.next_ch).pos = s.source.length := by
          rw [Lexer.lookahead_none_iff, Lexer.next_ch_source] at hla2
          omega
        have hdrop2 : s.source.drop (s.pos + 1) = [] := by
          apply List.drop_eq_nil_of_le
          omega
        constructor
        · show slice (s.next_ch).source b (s.next_ch).pos = _
          rw [Lexer.next_ch_source, hp, htake, hdrop2]
          show slice s.source b (s.pos + 1) = slice s.source b s.pos ++ [c0]
          rw [slice_snoc s.source hb hlt, hc0get]
        · show (s.next_ch).pos = _
          rw [hp, htake, hdrop2]
          rfl
      | some c =>
        have hlt2 : (s.next_ch).pos < s.source.length := by
          have := Lexer.lookahead_some_lt hla2
          rwa [Lexer.next_ch_source] at this
        have hcget := Lexer.next_lookahead_get hla2 hlt2
        rw [Lexer.rol_go_succ b n s c hla2]
        by_cases hcnl : c = '\n'
        · rw [if_pos hcnl]
          have hdrop2 : (s.source.drop (s.pos + 1)).takeWhile
              (fun c => !(c == '\n')) = [] := by
            rw [← hp, List.drop_eq_getElem_cons hlt2, hcget, hcnl,
              List.takeWhile_cons, if_neg (by simp)]
          constructor
          · show slice (s.next_ch).source b (s.next_ch).pos = _
            rw [Lexer.next_ch_source, hp, htake, hdrop2]
            show slice s.source b (s.pos + 1) = slice s.source b s.pos ++ [c0]
            rw [slice_snoc s.source hb hlt, hc0get]
          · show (s.next_ch).pos = _
            rw [hp, htake, hdrop2]
            rfl
        · rw [if_neg hcnl]
          have hihs := ih s.next_ch (by rw [Lexer.next_ch_source, hp]; omega)
            (by rw [Lexer.next_ch_source, hp]; omega) (by omega)
            (fun he => hcnl (by rw [hla2] at he; injection he))
          rw [Lexer.next_ch_source, hp] at hihs
          constructor
          · rw [hihs.1, htake]
            rw [slice_snoc s.source hb hlt, hc0get, List.append_assoc]
            rfl
          · rw [hihs.2, htake]
            rw [List.length_cons]
            omega
    · -- the input is exhausted: one advance keeps the cursor at the end
      have hpos : s.pos = s.source.length := by omega
      have hp : (s.next_ch).pos = s.source.length := by
        rw [Lexer.next_ch_pos]; omega
      have hla2 : (s.next_ch).lookahead = none := by
        rw [Lexer.lookahead_none_iff, Lexer.next_ch_source, hp]
      have hdrop : s.source.drop s.pos = [] := List.drop_eq_nil_of_le hge
      rw [Lexer.rol_go_succ_none b n s hla2]
      constructor
      · show slice (s.next_ch).source b (s.next_ch).pos = _
        rw [Lexer.next_ch_source, hp, hdrop, ← hpos]
        simp
      · show (s.next_ch).pos = _
        rw [hp, hdrop, ← hpos]
        simp

/-- C9 counterexample: the claim says `rest_of_line` returns the text up to
but excluding the next newline for every scanner state, never containing a
newline; but when the cursor sits on a newline (fresh scanner over an input
starting with one), the newline is consumed and returned as part of the
text, which continues up to the following newline or end of input. -/
theorem claim_C9_counterexample :
    ((Lexer.new ("\na".toList)).rest_of_line).1 = "\na".toList ∧
    '\n' ∈ ((Lexer.new ("\na".toList)).rest_of_line).1 ∧
    ((Lexer.new ("\na".toList)).rest_of_line).1 ≠
      ((Lexer.new ("\na".toList)).source.drop 0).takeWhile (fun c => !(c == '\n')) := by
  decide

/-- C9 (amended): for every scanner state whose cursor is within bounds and
whose lookahead is not itself a newline, `rest_of_line` returns exactly the
source text from the cursor up to but excluding the next newline (or end of
input), and that text contains no newline; a cursor sitting on a newline
instead consumes it as part of the returned text. -/
theorem claim_C9 (s : Lexer) (h : s.pos ≤ s.source.length)
    (hnl : s.lookahead ≠ some '\n') :
    (s.rest_of_line).1 =
      (s.source.drop s.pos).takeWhile (fun c => !(c == '\n')) ∧
    '\n' ∉ (s.rest_of_line).1 := by
  have hspec := Lexer.rol_go_spec s.pos (s.source.length + 1) s h (by omega)
    (le_refl _) hnl
  have hfst : (s.rest_of_line).1 =
      (s.source.drop s.pos).takeWhile (fun c => !(c == '\n')) := by
    show (Lexer.rol_go s.pos (s.source.length + 1) s).1 = _
    rw [hspec.1, slice_empty s.source (le_refl s.pos)]
    rfl
  refine ⟨hfst, ?_⟩
  rw [hfst]
  intro hmem
  have := List.mem_takeWhile_imp hmem
  simp at this

/-- Witness for C9 at the fresh scanner over `ab\ncd`. -/
theorem claim_C9_witness :
    ((Lexer.new ("ab\ncd".toList)).rest_of_line).1 =
      ((Lexer.new ("ab\ncd".toList)).source.drop
        (Lexer.new ("ab\ncd".toList)).pos).takeWhile (fun c => !(c == '\n')) ∧
    '\n' ∉ ((Lexer.new ("ab\ncd".toList)).rest_of_line).1 :=
  claim_C9 (Lexer.new ("ab\ncd".toList)) (by decide) (by decide)

/-! ### Line tracking -/

theorem char_le_toNat {a b : Char} (h : a ≤ b) : a.toNat ≤ b.toNat :=
  UInt32.le_def.mp (Char.le_def.mp h)

theorem digit_not_ws {c : Char} (h : is_ascii_digit c = true) :
    rust_is_whitespace c = false := by
  simp only [is_ascii_digit, Bool.and_eq_true, decide_eq_true_eq] at h
  rw [Bool.eq_false_iff]
  intro hw
  simp only [rust_is_whitespace, Bool.or_eq_true, Bool.and_eq_true,
    decide_eq_true_eq] at hw
  have h1 := char_le_toNat h.1
  have h2 := char_le_toNat h.2
  rcases hw with hsp | ⟨h9, hd⟩
  · rw [hsp] at h1
    exact absurd h1 (by decide)
  · have h3 := char_le_toNat hd
    have e1 : ('0' : Char).toNat = 48 := by decide
    have e2 : ('\x0d' : Char).toNat = 13 := by decide
    omega

theorem alpha_not_ws {c : Char} (h : rust_is_alphabetic c = true) :
    rust_is_whitespace c = false := by
  simp only [rust_is_alphabetic, Char.isAlpha, Char.isUpper, Char.isLower,
    Bool.or_eq_true, Bool.and_eq_true, decide_eq_true_eq] at h
  rw [Bool.eq_false_iff]
  intro hw
  simp only [rust_is_whitespace, Bool.or_eq_true, Bool.and_eq_true,
    decide_eq_true_eq] at hw
  have hd13 : ('\x0d' : Char).toNat = 13 := by decide
  rcases h with ⟨h1, _⟩ | ⟨h1, _⟩
  · have h1n : 65 ≤ c.toNat := UInt32.le_def.mp h1
    rcases hw with hw | ⟨_, hw⟩
    · rw [hw] at h1n
      exact absurd h1n (by decide)
    · have h2n := char_le_toNat hw
      omega
  · have h1n : 97 ≤ c.toNat := UInt32.le_def.mp h1
    rcases hw with hw | ⟨_, hw⟩
    · rw [hw] at h1n
      exact absurd h1n (by decide)
    · have h2n := char_le_toNat hw
      omega

/-- Location carried by a scan result, token or error alike. -/
def resultLoc : Except LocatedError LocatedToken → Nat
  | .ok t => t.location
  | .error e => e.location

theorem Lexer.scan_comment_loc (s : Lexer) :
    resultLoc (s.scan_comment).1 = s.line_number := rfl

theorem Lexer.scan_char_loc (s : Lexer) (tok : Token) :
    resultLoc (s.scan_char tok).1 = s.line_number := rfl

theorem Lexer.scan_chars2_loc (s : Lexer) (tok : Token) :
    resultLoc (s.scan_chars2 tok).1 = s.line_number := rfl

theorem Lexer.scan_number_loc (s : Lexer) :
    resultLoc (s.scan_number).1 = s.line_number := by
  rw [Lexer.scan_number_fst]
  split <;> rfl

theorem Lexer.scan_word_loc (s : Lexer) :
    resultLoc (s.scan_word).1 = s.line_number := by
  rw [Lexer.scan_word_fst]
  rfl

/-- The line-tracking invariant: the counter equals one plus the number of
newline characters strictly before the cursor. -/
def LineInv (s : Lexer) : Prop :=
  s.line_number = 1 + ((s.source.take s.pos).count '\n')

theorem Lexer.next_ch_line (s : Lexer) :
    (s.next_ch).line_number =
      if s.lookahead = some '\n' then s.line_number + 1 else s.line_number := rfl

theorem Lexer.next_ch_lineInv {s : Lexer} (h : LineInv s) : LineInv s.next_ch := by
  unfold LineInv at h ⊢
  rw [Lexer.next_ch_line, Lexer.next_ch_source, Lexer.next_ch_pos]
  cases hla : s.lookahead with
  | none =>
    have hge := (Lexer.lookahead_none_iff s).mp hla
    rw [if_neg (by exact fun hh => Option.noConfusion hh)]
    rw [show min (s.pos + 1) s.source.length = s.source.length from by omega]
    rw [List.take_length]
    rw [List.take_of_length_le hge] at h
    exact h
  | some c =>
    have hlt := Lexer.lookahead_some_lt hla
    rw [show min (s.pos + 1) s.source.length = s.pos + 1 from by omega]
    rw [List.take_succ]
    have hget : s.source[s.pos]? = some c := hla
    rw [hget]
    rw [List.count_append, h]
    by_cases hc : c = '\n'
    · rw [if_pos (by rw [hc]), hc]
      simp [List.count_singleton]
      omega
    · rw [if_neg (by intro hh; injection hh with hh; exact hc hh)]
      have hz : (Option.toList (some c)).count '\n' = 0 := by
        simp [List.count_singleton]
        exact fun hh => hc hh
      rw [hz]
      omega

/-! ### Every state the scanner produces is an iterate of next_ch -/

theorem Lexer.rol_go_iter (b : Nat) :
    ∀ (fuel : Nat) (s : Lexer), ∃ k, (Lexer.rol_go b fuel s).2 = Lexer.next_ch^[k] s := by
  intro fuel
  induction fuel with
  | zero => intro s; exact ⟨0, rfl⟩
  | succ n ih =>
    intro s
    cases hla : (s.next_ch).lookahead with
    | none =>
      rw [Lexer.rol_go_succ_none b n s hla]
      exact ⟨1, by rw [Function.iterate_one]⟩
    | some c =>
      rw [Lexer.rol_go_succ b n s c hla]
      by_cases hc : c = '\n'
      · rw [if_pos hc]
        exact ⟨1, by rw [Function.iterate_one]⟩
      · rw [if_neg hc]
        obtain ⟨k, hk⟩ := ih s.next_ch
        exact ⟨k + 1, by rw [Function.iterate_succ_apply]; exact hk⟩

theorem Lexer.nan_go_succ (n : Nat) (s : Lexer) (c : Char)
    (hla : (s.next_ch).lookahead = some c) :
    Lexer.nan_go (n + 1) s =
      if c = ':' then s.next_ch else Lexer.nan_go n s.next_ch := by
  conv_lhs => rw [Lexer.nan_go]
  rw [hla]

theorem Lexer.nan_go_succ_none (n : Nat) (s : Lexer)
    (hla : (s.next_ch).lookahead = none) :
    Lexer.nan_go (n + 1) s = s.next_ch := by
  conv_lhs => rw [Lexer.nan_go]
  rw [hla]

theorem Lexer.nan_go_iter :
    ∀ (fuel : Nat) (s : Lexer), ∃ k, Lexer.nan_go fuel s = Lexer.next_ch^[k] s := by
  intro fuel
  induction fuel with
  | zero => intro s; exact ⟨0, rfl⟩
  | succ n ih =>
    intro s
    cases hla : (s.next_ch).lookahead with
    | none =>
      rw [Lexer.nan_go_succ_none n s hla]
      exact ⟨1, by rw [Function.iterate_one]⟩
    | some c =>
      rw [Lexer.nan_go_succ n s c hla]
      by_cases hc : c = ':'
      · rw [if_pos hc]
        exact ⟨1, by rw [Function.iterate_one]⟩
      · rw [if_neg hc]
        obtain ⟨k, hk⟩ := ih s.next_ch
        exact ⟨k + 1, by rw [Function.iterate_succ_apply]; exact hk⟩

theorem Lexer.num_go_iter :
    ∀ (fuel : Nat) (s : Lexer), ∃ k, (Lexer.num_go fuel s).1 = Lexer.next_ch^[k] s := by
  intro fuel
  induction fuel with
  | zero => intro s; exact ⟨0, rfl⟩
  | succ n ih =>
    intro s
    cases hla : (s.next_ch).lookahead with
    | none =>
      rw [Lexer.num_go_succ_none n s hla]
      exact ⟨1, by rw [Function.iterate_one]⟩
    | some c =>
      rw [Lexer.num_go_succ n s c hla]
      obtain ⟨k, hk⟩ := ih s.next_ch
      by_cases hc1 : c = '-' ∨ c = '_'
      · rw [if_pos hc1]
        exact ⟨k + 1, by rw [Function.iterate_succ_apply]; exact hk⟩
      rw [if_neg hc1]
      by_cases hc2 : c = '.'
      · rw [if_pos hc2]
        exact ⟨k + 1, by rw [Function.iterate_succ_apply]; exact hk⟩
      rw [if_neg hc2]
      by_cases hc3 : rust_is_alphanumeric c = true
      · rw [if_pos hc3]
        exact ⟨k + 1, by rw [Function.iterate_succ_apply]; exact hk⟩
      · rw [if_neg hc3]
        exact ⟨1, by rw [Function.iterate_one]⟩

theorem Lexer.word_go_succ (n : Nat) (s : Lexer) (c : Char)
    (hla : (s.next_ch).lookahead = some c) :
    Lexer.word_go (n + 1) s =
      if c = '_' then Lexer.word_go n s.next_ch
      else if rust_is_alphanumeric c then Lexer.word_go n s.next_ch
      else s.next_ch := by
  conv_lhs => rw [Lexer.word_go]
  rw [hla]

theorem Lexer.word_go_succ_none (n : Nat) (s : Lexer)
    (hla : (s.next_ch).lookahead = none) :
    Lexer.word_go (n + 1) s = s.next_ch := by
  conv_lhs => rw [Lexer.word_go]
  rw [hla]

theorem Lexer.word_go_iter :
    ∀ (fuel : Nat) (s : Lexer), ∃ k, Lexer.word_go fuel s = Lexer.next_ch^[k] s := by
  intro fuel
  induction fuel with
  | zero => intro s; exact ⟨0, rfl⟩
  | succ n ih =>
    intro s
    obtain ⟨k, hk⟩ := ih s.next_ch
    cases hla : (s.next_ch).lookahead with
    | none =>
      rw [Lexer.word_go_succ_none n s hla]
      exact ⟨1, by rw [Function.iterate_one]⟩
    | some c =>
      rw [Lexer.word_go_succ n s c hla]
      by_cases hc1 : c = '_'
      · rw [if_pos hc1]
        exact ⟨k + 1, by rw [Function.iterate_succ_apply]; exact hk⟩
      rw [if_neg hc1]
      by_cases hc2 : rust_is_alphanumeric c = true
      · rw [if_pos hc2]
        exact ⟨k + 1, by rw [Function.iterate_succ_apply]; exact hk⟩
      · rw [if_neg hc2]
        exact ⟨1, by rw [Function.iterate_one]⟩

theorem Lexer.num_loop_entry_iter (s : Lexer) :
    ∃ k, s.num_loop_entry = Lexer.next_ch^[k] s := by
  simp only [Lexer.num_loop_entry]
  split
  case isTrue hm =>
    split
    case isTrue hn =>
      obtain ⟨k, hk⟩ := Lexer.nan_go_iter ((s.next_ch).source.length + 1) s.next_ch
      exact ⟨k + 1, by rw [Function.iterate_succ_apply]; exact hk⟩
    case isFalse hn => exact ⟨1, by rw [Function.iterate_one]⟩
  case isFalse hm =>
    split
    case isTrue hn => exact Lexer.nan_go_iter (s.source.length + 1) s
    case isFalse hn => exact ⟨0, rfl⟩

theorem Lexer.next_iter (s : Lexer) : ∃ k, (s.next).2 = Lexer.next_ch^[k] s := by
  show ∃ k, (Lexer.nextGo (s.source.length + 1) s).2 = Lexer.next_ch^[k] s
  generalize s.source.length + 1 = fuel
  induction fuel generalizing s with
  | zero => exact ⟨0, rfl⟩
  | succ n ih =>
    cases hla : s.lookahead with
    | none =>
      rw [Lexer.nextGo_succ_none n s hla]
      exact ⟨0, rfl⟩
    | some c =>
      rw [Lexer.nextGo_succ n s c hla]
      by_cases h1 : c = ';'
      · rw [if_pos h1]
        exact Lexer.rol_go_iter s.pos (s.source.length + 1) s
      rw [if_neg h1]
      by_cases h2 : c = '('
      · rw [if_pos h2]; exact ⟨1, by rw [Function.iterate_one] <;> rfl⟩
      rw [if_neg h2]
      by_cases h3 : c = ')'
      · rw [if_pos h3]; exact ⟨1, by rw [Function.iterate_one] <;> rfl⟩
      rw [if_neg h3]
      by_cases h4 : c = '\x7b'
      · rw [if_pos h4]; exact ⟨1, by rw [Function.iterate_one] <;> rfl⟩
      rw [if_neg h4]
      by_cases h5 : c = '\x7d'
      · rw [if_pos h5]; exact ⟨1, by rw [Function.iterate_one] <;> rfl⟩
      rw [if_neg h5]
      by_cases h6 : c = ','
      · rw [if_pos h6]; exact ⟨1, by rw [Function.iterate_one] <;> rfl⟩
      rw [if_neg h6]
      by_cases h7 : c = '.'
      · rw [if_pos h7]; exact ⟨1, by rw [Function.iterate_one] <;> rfl⟩
      rw [if_neg h7]
      by_cases h8 : c = ':'
      · rw [if_pos h8]; exact ⟨1, by rw [Function.iterate_one] <;> rfl⟩
      rw [if_neg h8]
      by_cases h9 : c = '='
      · rw [if_pos h9]; exact ⟨1, by rw [Function.iterate_one] <;> rfl⟩
      rw [if_neg h9]
      by_cases h10 : c = '-'
      · rw [if_pos h10]
        by_cases h10a : s.looking_at ("->".toList) = true
        · rw [if_pos h10a]
          exact ⟨2, by rw [Function.iterate_succ_apply, Function.iterate_one] <;> rfl⟩
        · rw [if_neg h10a]
          show ∃ k, (s.scan_number).2 = Lexer.next_ch^[k] s
          rw [Lexer.scan_number_snd]
          obtain ⟨k1, hk1⟩ := Lexer.num_loop_entry_iter s
          obtain ⟨k2, hk2⟩ := Lexer.num_go_iter
            ((s.num_loop_entry).source.length + 1) s.num_loop_entry
          exact ⟨k2 + k1, by rw [Function.iterate_add_apply, ← hk1]; exact hk2⟩
      rw [if_neg h10]
      by_cases h11 : is_ascii_digit c = true
      · rw [if_pos h11]
        show ∃ k, (s.scan_number).2 = Lexer.next_ch^[k] s
        rw [Lexer.scan_number_snd]
        obtain ⟨k1, hk1⟩ := Lexer.num_loop_entry_iter s
        obtain ⟨k2, hk2⟩ := Lexer.num_go_iter
          ((s.num_loop_entry).source.length + 1) s.num_loop_entry
        exact ⟨k2 + k1, by rw [Function.iterate_add_apply, ← hk1]; exact hk2⟩
      rw [if_neg h11]
      by_cases h12 : rust_is_alphabetic c = true
      · rw [if_pos h12]
        show ∃ k, (s.scan_word).2 = Lexer.next_ch^[k] s
        rw [Lexer.scan_word_snd]
        exact Lexer.word_go_iter (s.source.length + 1) s
      rw [if_neg h12]
      by_cases h13 : rust_is_whitespace c = true
      · rw [if_pos h13]
        obtain ⟨k, hk⟩ := ih s.next_ch
        exact ⟨k + 1, by rw [Function.iterate_succ_apply]; exact hk⟩
      · rw [if_neg h13]
        exact ⟨1, by rw [Function.iterate_one] <;> rfl⟩

theorem Lexer.rest_of_line_iter (s : Lexer) :
    ∃ k, (s.rest_of_line).2 = Lexer.next_ch^[k] s :=
  Lexer.rol_go_iter s.pos (s.source.length + 1) s

theorem Lexer.lineInv_iterate {s : Lexer} (h : LineInv s) :
    ∀ k, LineInv (Lexer.next_ch^[k] s) := by
  intro k
  induction k with
  | zero => exact h
  | succ n ih =>
    rw [Function.iterate_succ_apply']
    exact Lexer.next_ch_lineInv ih

/-- States the scanner can be in after any sequence of `next` and
`rest_of_line` calls starting from a fresh scanner over `src`. -/
inductive Reachable (src : List Char) : Lexer → Prop where
  | init : Reachable src (Lexer.new src)
  | tok {s : Lexer} : Reachable src s → Reachable src ((s.next).2)
  | rol {s : Lexer} : Reachable src s → Reachable src ((s.rest_of_line).2)

theorem Lexer.reachable_inv {src : List Char} {s : Lexer} (h : Reachable src s) :
    LineInv s ∧ s.source = src ∧ s.pos ≤ s.source.length := by
  induction h with
  | init =>
    refine ⟨?_, rfl, Nat.zero_le _⟩
    show (1 : Nat) = 1 + ((src.take 0).count '\n')
    simp
  | tok hr ih =>
    rename_i t
    obtain ⟨k, hk⟩ := Lexer.next_iter t
    have h1 : LineInv ((t.next).2) := by
      rw [hk]; exact Lexer.lineInv_iterate ih.1 k
    have h2 := Lexer.next_state t
    exact ⟨h1, by rw [h2.1, ih.2.1], by
      rw [h2.1]
      exact (h2.2 ih.2.2).2⟩
  | rol hr ih =>
    rename_i t
    obtain ⟨k, hk⟩ := Lexer.rest_of_line_iter t
    have h1 : LineInv ((t.rest_of_line).2) := by
      rw [hk]; exact Lexer.lineInv_iterate ih.1 k
    have h2 : ((t.rest_of_line).2).source = t.source := Lexer.rol_go_source _ _ _
    have h3 := Lexer.rol_go_pos t.pos (t.source.length + 1) t ih.2.2
    exact ⟨h1, by rw [h2, ih.2.1], by rw [h2]; exact h3.2⟩

theorem Lexer.nextGo_loc :
    ∀ (fuel : Nat) (s : Lexer), LineInv s → s.pos ≤ s.source.length →
      ∀ (r : Except LocatedError LocatedToken) (s2 : Lexer),
        Lexer.nextGo fuel s = (some r, s2) →
        ∃ q, s.pos ≤ q ∧
          (∀ i, s.pos ≤ i → i < q → ∃ ci, s.source[i]? = some ci ∧
            rust_is_whitespace ci = true) ∧
          (∃ cq, s.source[q]? = some cq ∧ rust_is_whitespace cq = false) ∧
          resultLoc r = 1 + ((s.source.take q).count '\n') := by
  intro fuel
  induction fuel with
  | zero =>
    intro s _ _ r s2 hr
    have := congrArg Prod.fst hr
    exact absurd this (by simp [Lexer.nextGo_zero])
  | succ n ih =>
    intro s hline hwf r s2 hr
    cases hla : s.lookahead with
    | none =>
      rw [Lexer.nextGo_succ_none n s hla] at hr
      have := congrArg Prod.fst hr
      exact absurd this (by simp)
    | some c =>
      rw [Lexer.nextGo_succ n s c hla] at hr
      have hbase : ∀ (X : Except LocatedError LocatedToken) (Y : Lexer),
          (some X, Y) = (some r, s2) → resultLoc X = s.line_number →
          rust_is_whitespace c = false →
          ∃ q, s.pos ≤ q ∧
            (∀ i, s.pos ≤ i → i < q → ∃ ci, s.source[i]? = some ci ∧
              rust_is_whitespace ci = true) ∧
            (∃ cq, s.source[q]? = some cq ∧ rust_is_whitespace cq = false) ∧
            resultLoc r = 1 + ((s.source.take q).count '\n') := by
        intro X Y heq hloc hnws
        have hXr : X = r := by
          have h1 := congrArg Prod.fst heq
          injection h1
        refine ⟨s.pos, le_refl _, ?_, ⟨c, hla, hnws⟩, ?_⟩
        · intro i hi1 hi2
          omega
        · rw [← hXr, hloc]
          exact hline
      by_cases h1 : c = ';'
      · rw [if_pos h1] at hr
        exact hbase _ _ hr (Lexer.scan_comment_loc s) (by rw [h1]; decide)
      rw [if_neg h1] at hr
      by_cases h2 : c = '('
      · rw [if_pos h2] at hr
        exact hbase _ _ hr (Lexer.scan_char_loc s _) (by rw [h2]; decide)
      rw [if_neg h2] at hr
      by_cases h3 : c = ')'
      · rw [if_pos h3] at hr
        exact hbase _ _ hr (Lexer.scan_char_loc s _) (by rw [h3]; decide)
      rw [if_neg h3] at hr
      by_cases h4 : c = '\x7b'
      · rw [if_pos h4] at hr
        exact hbase _ _ hr (Lexer.scan_char_loc s _) (by rw [h4]; decide)
      rw [if_neg h4] at hr
      by_cases h5 : c = '\x7d'
      · rw [if_pos h5] at hr
        exact hbase _ _ hr (Lexer.scan_char_loc s _) (by rw [h5]; decide)
      rw [if_neg h5] at hr
      by_cases h6 : c = ','
      · rw [if_pos h6] at hr
        exact hbase _ _ hr (Lexer.scan_char_loc s _) (by rw [h6]; decide)
      rw [if_neg h6] at hr
      by_cases h7 : c = '.'
      · rw [if_pos h7] at hr
        exact hbase _ _ hr (Lexer.scan_char_loc s _) (by rw [h7]; decide)
      rw [if_neg h7] at hr
      by_cases h8 : c = ':'
      · rw [if_pos h8] at hr
        exact hbase _ _ hr (Lexer.scan_char_loc s _) (by rw [h8]; decide)
      rw [if_neg h8] at hr
      by_cases h9 : c = '='
      · rw [if_pos h9] at hr
        exact hbase _ _ hr (Lexer.scan_char_loc s _) (by rw [h9]; decide)
      rw [if_neg h9] at hr
      by_cases h10 : c = '-'
      · rw [if_pos h10] at hr
        by_cases h10a : s.looking_at ("->".toList) = true
        · rw [if_pos h10a] at hr
          exact hbase _ _ hr (Lexer.scan_chars2_loc s _) (by rw [h10]; decide)
        · rw [if_neg h10a] at hr
          exact hbase _ _ hr (Lexer.scan_number_loc s) (by rw [h10]; decide)
      rw [if_neg h10] at hr
      by_cases h11 : is_ascii_digit c = true
      · rw [if_pos h11] at hr
        exact hbase _ _ hr (Lexer.scan_number_loc s) (digit_not_ws h11)
      rw [if_neg h11] at hr
      by_cases h12 : rust_is_alphabetic c = true
      · rw [if_pos h12] at hr
        exact hbase _ _ hr (Lexer.scan_word_loc s) (alpha_not_ws h12)
      rw [if_neg h12] at hr
      by_cases h13 : rust_is_whitespace c = true
      · rw [if_pos h13] at hr
        have hlt : s.pos < s.source.length := Lexer.lookahead_some_lt hla
        have hp : (s.next_ch).pos = s.pos + 1 := Lexer.next_ch_pos_of_lt hlt
        obtain ⟨q, hq1, hq2, hq3, hq4⟩ := ih s.next_ch (Lexer.next_ch_lineInv hline)
          (by rw [Lexer.next_ch_source, hp]; omega) r s2 hr
        rw [Lexer.next_ch_source] at hq2 hq3 hq4
        rw [hp] at hq1
        refine ⟨q, by omega, ?_, hq3, hq4⟩
        intro i hi1 hi2
        by_cases hie : i = s.pos
        · exact ⟨c, by rw [hie]; exact hla, h13⟩
        · exact hq2 i (by omega) hi2
      · rw [if_neg h13] at hr
        refine hbase _ _ hr rfl ?_
        rw [Bool.eq_false_iff]
        exact h13

/-- C8: at every state reachable by any sequence of `next` and
`rest_of_line` calls, the line counter equals one plus the number of newline
characters strictly before the cursor (it is bumped exactly once per consumed
newline, by `next_ch`); consequently every returned token or error carries
the line number `1 + (newlines strictly before its first character)`, where
that first character is the first non-whitespace character at or after the
cursor; concretely, a comment beginning on line 2 is reported at line 2 and a
comment on the following source line at line 3. -/
theorem claim_C8 :
    (∀ (src : List Char) (s : Lexer), Reachable src s →
      s.line_number = 1 + ((s.source.take s.pos).count '\n')) ∧
    (∀ (src : List Char) (s : Lexer), Reachable src s →
      ∀ (r : Except LocatedError LocatedToken) (s2 : Lexer),
        s.next = (some r, s2) →
        ∃ q, s.pos ≤ q ∧
          (∀ i, s.pos ≤ i → i < q → ∃ ci, s.source[i]? = some ci ∧
            rust_is_whitespace ci = true) ∧
          (∃ cq, s.source[q]? = some cq ∧ rust_is_whitespace cq = false) ∧
          resultLoc r = 1 + ((s.source.take q).count '\n')) ∧
    tokenize "\n; c\n; d" =
      [Except.ok ⟨Token.Comment ("; c".toList), 2⟩,
        Except.ok ⟨Token.Comment ("; d".toList), 3⟩] := by
  refine ⟨?_, ?_, by decide⟩
  · intro src s h
    exact (Lexer.reachable_inv h).1
  · intro src s h r s2 hr
    have hinv := Lexer.reachable_inv h
    exact Lexer.nextGo_loc (s.source.length + 1) s hinv.1 hinv.2.2 r s2 hr

/-- Witness for C8 at the fresh scanner over `a`, a reachable state whose
first `next` call emits an identifier token at line 1. -/
theorem claim_C8_witness :
    (Lexer.new ("a".toList)).line_number =
      1 + (((Lexer.new ("a".toList)).source.take
        (Lexer.new ("a".toList)).pos).count '\n') ∧
    ∃ q, (Lexer.new ("a".toList)).pos ≤ q ∧
      (∀ i, (Lexer.new ("a".toList)).pos ≤ i → i < q →
        ∃ ci, (Lexer.new ("a".toList)).source[i]? = some ci ∧
          rust_is_whitespace ci = true) ∧
      (∃ cq, (Lexer.new ("a".toList)).source[q]? = some cq ∧
        rust_is_whitespace cq = false) ∧
      resultLoc (Except.ok ⟨Token.Identifier ("a".toList), 1⟩) =
        1 + (((Lexer.new ("a".toList)).source.take q).count '\n') :=
  ⟨claim_C8.1 ("a".toList) (Lexer.new ("a".toList)) Reachable.init,
    claim_C8.2.1 ("a".toList) (Lexer.new ("a".toList)) Reachable.init
      (Except.ok ⟨Token.Identifier ("a".toList), 1⟩)
      ⟨"a".toList, 1, 1⟩ (by decide)⟩

end Cton
